import Mathlib

/-!
Shallow embedding of the `mc_schems` Minecraft-schematic codec
(`src/lib.rs` and `src/sponge.rs`) and proofs about it.

The external `nbt` crate is modelled as a tree of `Value`s; a gzip-framed
document is represented by the root compound of its decoded blob (the gzip
and binary-NBT layers are external collaborators and are not modelled).
Rust `HashMap`s are modelled as association lists with replace-on-insert
semantics; Rust panics (`panic!`, `unreachable!`, out-of-bounds indexing,
arithmetic overflow in debug builds) are modelled by the `Outcome.fatal`
constructor, distinct from returned `SchematicError` values.
-/

set_option autoImplicit false

namespace McSchems

variable {κ α β : Type}

/-- String key constants used by the wire format (`src/sponge.rs`, `src/lib.rs`). -/
def kVersion : String := "Version"

def kRegions : String := "Regions"

def kSchematic : String := "Schematic"

def kDataVersion : String := "DataVersion"

def kWidth : String := "Width"

def kHeight : String := "Height"

def kLength : String := "Length"

def kMetadata : String := "Metadata"

def kOffset : String := "Offset"

def kPalette : String := "Palette"

def kBlockData : String := "BlockData"

def kData : String := "Data"

def kBlocks : String := "Blocks"

def kBlockEntities : String := "BlockEntities"

def kTileEntities : String := "TileEntities"

def kPos : String := "Pos"

def kId : String := "Id"

def kWEOffsetX : String := "WEOffsetX"

def kWEOffsetY : String := "WEOffsetY"

def kWEOffsetZ : String := "WEOffsetZ"

def kAir : String := "minecraft:air"

def kStone : String := "minecraft:stone"

/-- `nbt::Value` (the external tagged-tree value type), restricted to the
constructors the codec consumes.  Integer payloads are carried as `Int`
(`byteArray` entries are `i8`, `intArray` entries and `int` are `i32`,
`short` is `i16`). -/
inductive Value where
  | short : Int → Value
  | int : Int → Value
  | long : Int → Value
  | string : String → Value
  | byteArray : List Int → Value
  | intArray : List Int → Value
  | list : List Value → Value
  | compound : List (String × Value) → Value

/-- Association-list model of a Rust `HashMap` (lookup by key). -/
def alGet [BEq κ] (m : List (κ × α)) (k : κ) : Option α :=
  match m with
  | [] => none
  | (k0, v0) :: rest => if k0 == k then some v0 else alGet rest k

/-- `HashMap::insert`: replace the value at an existing key, else add the entry. -/
def alInsert [BEq κ] (m : List (κ × α)) (k : κ) (v : α) : List (κ × α) :=
  match m with
  | [] => [(k, v)]
  | (k0, v0) :: rest => if k0 == k then (k0, v) :: rest else (k0, v0) :: alInsert rest k v

/-- `HashMap::remove` / `remove_entry`. -/
def alRemove [BEq κ] (m : List (κ × α)) (k : κ) : List (κ × α) :=
  m.filter (fun p => !(p.1 == k))

/-- `HashMap::contains_key`. -/
def alContains [BEq κ] (m : List (κ × α)) (k : κ) : Bool :=
  (alGet m k).isSome

/-- The root compound of a decoded NBT blob. -/
abbrev NbtMap := List (String × Value)

/-- `SchematicaFormat` from `src/lib.rs` (`Structure` / `Alpha`). -/
inductive SchematicaFormat where
  | struct : SchematicaFormat
  | alpha : SchematicaFormat
deriving DecidableEq

/-- `SchematicFormat` from `src/lib.rs`; versions are `u32`, carried as `Nat`. -/
inductive SchematicFormat where
  | sponge : Nat → SchematicFormat
  | litematica : Nat → SchematicFormat
  | schematica : SchematicaFormat → SchematicFormat
deriving DecidableEq

/-- `SchematicError` from `src/lib.rs`.  `nbtError` stands for the wrapped
external `nbt::Error`.  `invalidValue` is referenced by the `convert_or_err!`
macro in `src/sponge.rs` and listed in the spec's error taxonomy. -/
inductive SchematicError where
  | unrecognizedFormat : SchematicError
  | unsupportedFormat : SchematicFormat → SchematicError
  | nbtError : SchematicError
  | missingRequiredField : String → SchematicError
  | mistypedField : String → SchematicError
  | invalidValue : String → SchematicError
deriving DecidableEq

/-- Result of running a piece of the Rust code: a returned value, a returned
`SchematicError`, or a fatal fault (`panic!` / `unreachable!` / out-of-bounds
indexing / debug arithmetic overflow). -/
inductive Outcome (α : Type) where
  | ok : α → Outcome α
  | error : SchematicError → Outcome α
  | fatal : Outcome α

end McSchems

namespace McSchems

variable {κ α β : Type}

def Outcome.bind (x : Outcome α) (f : α → Outcome β) : Outcome β :=
  match x with
  | .ok a => f a
  | .error e => .error e
  | .fatal => .fatal

instance : Monad Outcome where
  pure := Outcome.ok
  bind := Outcome.bind

def Outcome.toOption (x : Outcome α) : Option α :=
  match x with
  | .ok a => some a
  | _ => none

def Outcome.getD (x : Outcome α) (d : α) : α :=
  match x with
  | .ok a => a
  | _ => d

/-- `v as u32` for a signed integer value `v` (`i32 as u32` and the
sign-extending `i16 as u32` both reduce to `v mod 2^32`). -/
def u32cast (v : Int) : Nat := (v % (2 ^ 32 : Int)).toNat

/-- `n as i32` for `n : u32` (two's-complement reinterpretation). -/
def i32ofU32 (n : Nat) : Int :=
  if n % 2 ^ 32 < 2 ^ 31 then (n % 2 ^ 32 : Nat) else (n % 2 ^ 32 : Nat) - 2 ^ 32

/-- `t as i8` for `t : u8`. -/
def natToI8 (n : Nat) : Int :=
  if n % 256 < 128 then (n % 256 : Nat) else (n % 256 : Nat) - 256

/-- `*b as u8` for `b : i8`. -/
def i8toU8 (b : Int) : Nat := (b % 256).toNat

/-- `u32 -> i16` via `try_into()`, as used by `convert_or_err!` for the
`Width`/`Height`/`Length` fields: fails with `InvalidValue(name)` when the
value exceeds `i16::MAX`. -/
def tryIntoI16 (n : Nat) (name : String) : Outcome Int :=
  if n ≤ 32767 then .ok (n : Int) else .error (.invalidValue name)

/-- One iteration `temp = idx & 255; idx >>= 7; if idx != 0 ⟪temp ∣= 128⟫`
of the varint writer loop in `write_block_container` (`src/sponge.rs`),
emitting the `u8` bytes of one block id. -/
def encodeVarint (idx : Nat) : List Nat :=
  if h : idx >>> 7 = 0 then [idx &&& 255]
  else ((idx &&& 255) ||| 128) :: encodeVarint (idx >>> 7)
termination_by idx
decreasing_by
  have h7 : idx >>> 7 = idx / 2 ^ 7 := Nat.shiftRight_eq_div_pow idx 7
  have hpos : 0 < idx := by
    rcases Nat.eq_zero_or_pos idx with rfl | hp
    · exact absurd (Nat.zero_shiftRight 7) h
    · exact hp
  rw [h7]
  exact Nat.div_lt_self hpos (by norm_num)

/-- The varint reader loop `for varint_len in 0..=5` in
`read_block_container` (`src/sponge.rs`).  `fuel` counts the remaining
iterations (6 at entry); the accumulated `u32` is `acc`.  Reading past the
end of the byte array is a fatal index fault; `varint_len = 5` performs a
left shift by 35 ≥ 32, a fatal overflow.  The loop body accumulates first,
then tests the continuation bit. -/
def decodeVarintLoop (acc varintLen fuel : Nat) (arr : List Nat) :
    Outcome (Nat × List Nat) :=
  match fuel with
  | 0 => .ok (acc, arr)
  | fuel + 1 =>
    match arr with
    | [] => .fatal
    | b :: rest =>
      if 32 ≤ 7 * varintLen then .fatal
      else
        let acc2 := acc ||| ((b &&& 127) <<< (7 * varintLen)) % 2 ^ 32
        if b &&& 128 ≠ 128 then .ok (acc2, rest)
        else decodeVarintLoop acc2 (varintLen + 1) fuel rest

/-- Decode one block id from the front of the byte array (the Rust loop with
`varint_len` starting at 0). -/
def decodeVarint (arr : List Nat) : Outcome (Nat × List Nat) :=
  decodeVarintLoop 0 0 6 arr

/-- `Blocks` from `src/lib.rs`: palette-compressed fixed-size 3D grid.
`u32` fields are carried as `Nat`. -/
structure Blocks where
  palette : List String
  palette_map : List (String × Nat)
  indices : List Nat
  size_x : Nat
  size_y : Nat
  size_z : Nat

/-- `Blocks::new`.  The Rust constructor computes `size_x * size_y * size_z`
in `u32`; callers below that reach it with untrusted sizes guard the product
against `u32` overflow (a fatal fault in a debug build). -/
def Blocks.new (sx sy sz : Nat) (initial : String) : Blocks :=
  { palette := [initial]
    palette_map := [(initial, 0)]
    indices := List.replicate (sx * sy * sz) 0
    size_x := sx
    size_y := sy
    size_z := sz }

/-- `Blocks::size`. -/
def Blocks.size (b : Blocks) : Nat × Nat × Nat := (b.size_x, b.size_y, b.size_z)

/-- `Blocks::bounds_check` succeeds exactly on these positions (it panics
otherwise). -/
def Blocks.inBounds (b : Blocks) (x y z : Nat) : Bool :=
  x < b.size_x && y < b.size_y && z < b.size_z

/-- `Blocks::block_index_at`. -/
def Blocks.block_index_at (b : Blocks) (x y z : Nat) : Nat :=
  x * b.size_y * b.size_z + y * b.size_z + z

/-- `Blocks::get_block_id_at`: `bounds_check` panic, then `Vec` index panic
if the flat index is out of range of `indices`. -/
def Blocks.get_block_id_at (b : Blocks) (x y z : Nat) : Outcome Nat :=
  if b.inBounds x y z then
    match b.indices.get? (b.block_index_at x y z) with
    | some id => .ok id
    | none => .fatal
  else .fatal

/-- `Blocks::get_block_at`: the id is then used to index `palette`
(a `Vec` index panic if the id is not a valid palette index). -/
def Blocks.get_block_at (b : Blocks) (x y z : Nat) : Outcome String :=
  (b.get_block_id_at x y z).bind fun id =>
    match b.palette.get? id with
    | some name => .ok name
    | none => .fatal

/-- `Blocks::get_block_id_for`: look the name up in `palette_map`, appending
a fresh palette entry when absent.  Returns the id and the updated
container. -/
def Blocks.get_block_id_for (b : Blocks) (block : String) : Nat × Blocks :=
  match alGet b.palette_map block with
  | some id => (id, b)
  | none =>
    let next := b.palette.length
    (next,
      { b with
        palette := b.palette ++ [block]
        palette_map := alInsert b.palette_map block next })

/-- `Blocks::set_block_id_at`: `bounds_check` panic, then `Vec` index-assign
panic if the flat index is out of range of `indices`. -/
def Blocks.set_block_id_at (b : Blocks) (x y z : Nat) (id : Nat) : Outcome Blocks :=
  if b.inBounds x y z then
    if b.block_index_at x y z < b.indices.length then
      .ok { b with indices := b.indices.set (b.block_index_at x y z) id }
    else .fatal
  else .fatal

/-- `Blocks::set_block_at`. -/
def Blocks.set_block_at (b : Blocks) (x y z : Nat) (block : String) : Outcome Blocks :=
  let (id, b2) := b.get_block_id_for block
  b2.set_block_id_at x y z id

/-- `BlockEntity` from `src/lib.rs`. -/
structure BlockEntity where
  id : String
  data : NbtMap

/-- `Schematic` from `src/lib.rs`.  `block_entities` models the
`HashMap<(u32,u32,u32), BlockEntity>` as an association list. -/
structure Schematic where
  blocks : Blocks
  origin : Option (Int × Int × Int)
  paste_offset : Option (Int × Int × Int)
  biomes : Option Blocks
  data_version : Option Nat
  block_entities : List ((Nat × Nat × Nat) × BlockEntity)
  metadata : Option NbtMap

/-- `required_nbt!(m, name, Int)`. -/
def reqInt (m : NbtMap) (name : String) : Outcome Int :=
  match alGet m name with
  | some (.int v) => .ok v
  | some _ => .error (.mistypedField name)
  | none => .error (.missingRequiredField name)

/-- `required_nbt!(m, name, Short)`. -/
def reqShort (m : NbtMap) (name : String) : Outcome Int :=
  match alGet m name with
  | some (.short v) => .ok v
  | some _ => .error (.mistypedField name)
  | none => .error (.missingRequiredField name)

/-- `required_nbt!(m, name, String)`. -/
def reqString (m : NbtMap) (name : String) : Outcome String :=
  match alGet m name with
  | some (.string v) => .ok v
  | some _ => .error (.mistypedField name)
  | none => .error (.missingRequiredField name)

/-- `required_nbt!(m, name, Compound)`. -/
def reqCompound (m : NbtMap) (name : String) : Outcome NbtMap :=
  match alGet m name with
  | some (.compound v) => .ok v
  | some _ => .error (.mistypedField name)
  | none => .error (.missingRequiredField name)

/-- `required_nbt!(m, name, ByteArray)`. -/
def reqByteArray (m : NbtMap) (name : String) : Outcome (List Int) :=
  match alGet m name with
  | some (.byteArray v) => .ok v
  | some _ => .error (.mistypedField name)
  | none => .error (.missingRequiredField name)

/-- `required_nbt!(m, name, IntArray)`. -/
def reqIntArray (m : NbtMap) (name : String) : Outcome (List Int) :=
  match alGet m name with
  | some (.intArray v) => .ok v
  | some _ => .error (.mistypedField name)
  | none => .error (.missingRequiredField name)

/-- `typed_nbt!(m, name, Compound)`. -/
def optCompound (m : NbtMap) (name : String) : Outcome (Option NbtMap) :=
  match alGet m name with
  | some (.compound v) => .ok (some v)
  | some _ => .error (.mistypedField name)
  | none => .ok none

/-- `typed_nbt!(m, name, List)`. -/
def optList (m : NbtMap) (name : String) : Outcome (Option (List Value)) :=
  match alGet m name with
  | some (.list v) => .ok (some v)
  | some _ => .error (.mistypedField name)
  | none => .ok none

/-- `typed_nbt!(m, name, IntArray)`. -/
def optIntArray (m : NbtMap) (name : String) : Outcome (Option (List Int)) :=
  match alGet m name with
  | some (.intArray v) => .ok (some v)
  | some _ => .error (.mistypedField name)
  | none => .ok none

/-- `typed_nbt!(m, name, Int)`. -/
def optIntField (m : NbtMap) (name : String) : Outcome (Option Int) :=
  match alGet m name with
  | some (.int v) => .ok (some v)
  | some _ => .error (.mistypedField name)
  | none => .ok none

/-- The `Palette` loop of `read_block_container`: for each entry the value
must be an `Int`, and the wire id (`*value as u32`) is mapped to the id
`get_block_id_for` assigns in the growing container. -/
def readPalette (entries : List (String × Value)) (wire : List (Nat × Nat)) (b : Blocks) :
    Outcome (List (Nat × Nat) × Blocks) :=
  match entries with
  | [] => .ok (wire, b)
  | (name, v) :: rest =>
    match v with
    | .int value =>
      let p := b.get_block_id_for name
      readPalette rest (alInsert wire (u32cast value) p.1) p.2
    | _ => .error (.mistypedField name)

/-- Iteration order of the block-data loops: `y` outermost, then `z`, then
`x` innermost (`for y … for z … for x`). -/
def traversal (sx sy sz : Nat) : List (Nat × Nat × Nat) :=
  (List.range sy).flatMap fun y =>
    (List.range sz).flatMap fun z =>
      (List.range sx).map fun x => (x, y, z)

/-- The block-data decode loop of `read_block_container`: one varint per
cell, translated through the wire palette (a `HashMap` index panic when the
wire id is absent), written via `set_block_id_at`.  Returns the container
and the unconsumed bytes (the source ignores trailing bytes). -/
def readCells (wire : List (Nat × Nat)) (ps : List (Nat × Nat × Nat)) (arr : List Nat)
    (b : Blocks) : Outcome (Blocks × List Nat) :=
  match ps with
  | [] => .ok (b, arr)
  | (x, y, z) :: rest => do
    let va ← decodeVarint arr
    let id ← match alGet wire va.1 with
      | some id => Outcome.ok id
      | none => Outcome.fatal
    let b2 ← b.set_block_id_at x y z id
    readCells wire rest va.2 b2

/-- One element of the `BlockEntities` list in `read_block_container`:
must be a compound; `Pos` (an `IntArray`, indexed at 0,1,2 with `Vec` index
panics on a short array) and `Id` (a `String`) are extracted and removed
from the retained payload; insertion into the position-keyed map is
last-write-wins. -/
def readBlockEntity (version : Nat) (acc : List ((Nat × Nat × Nat) × BlockEntity))
    (v : Value) : Outcome (List ((Nat × Nat × Nat) × BlockEntity)) :=
  match v with
  | .compound val => do
    let posArr ← reqIntArray val kPos
    let pos ← match posArr.get? 0, posArr.get? 1, posArr.get? 2 with
      | some a, some b, some c => Outcome.ok (u32cast a, u32cast b, u32cast c)
      | _, _, _ => Outcome.fatal
    let idStr ← reqString val kId
    let data := alRemove (alRemove val kPos) kId
    .ok (alInsert acc pos ⟨idStr, data⟩)
  | _ => .error (.mistypedField (if version = 1 then kTileEntities else kBlockEntities))

/-- `read_block_container` from `src/sponge.rs`.  The leading product guard
models the `u32` multiplication `size_x * size_y * size_z` performed by
`Blocks::new` on the untrusted sizes. -/
def read_block_container (version sx sy sz : Nat) (nbt : NbtMap) :
    Outcome (Blocks × List ((Nat × Nat × Nat) × BlockEntity)) :=
  if sx * sy * sz < 2 ^ 32 then do
    let blocks := Blocks.new sx sy sz kAir
    let nbtPalette ← reqCompound nbt kPalette
    let wb ← readPalette nbtPalette [] blocks
    let dataName ← match version with
      | 2 => Outcome.ok kBlockData
      | 3 => Outcome.ok kData
      | _ => Outcome.fatal
    let blockArrI ← reqByteArray nbt dataName
    let br ← readCells wb.1 (traversal sx sy sz) (blockArrI.map i8toU8) wb.2
    let bes ← match ← optList nbt kBlockEntities with
      | some l => l.foldlM (readBlockEntity version) []
      | none => Outcome.ok []
    .ok (br.1, bes)
  else .fatal

/-- `deserialize` from `src/sponge.rs` (the version-2-family and version-3
reader), applied to the root compound of the decoded blob. -/
def sponge_deserialize (root : NbtMap) (version : Nat) : Outcome Schematic := do
  let nbt ← match version with
    | 2 => Outcome.ok root
    | 3 => reqCompound root kSchematic
    | _ => Outcome.error (.unsupportedFormat (.sponge version))
  let dataVersion ← reqInt nbt kDataVersion
  let wS ← reqShort nbt kWidth
  let hS ← reqShort nbt kHeight
  let lS ← reqShort nbt kLength
  let metadata0 ← optCompound nbt kMetadata
  let pom ← if version = 3 then do
      let off ← reqIntArray nbt kOffset
      if off.length ≠ 3 then Outcome.error (.mistypedField kOffset)
      else Outcome.ok (some (off.getD 0 0, off.getD 1 0, off.getD 2 0), metadata0)
    else
      match metadata0 with
      | some md =>
        if alContains md kWEOffsetX then do
          let ox ← optIntField md kWEOffsetX
          let oy ← optIntField md kWEOffsetY
          let oz ← optIntField md kWEOffsetZ
          let md2 := alRemove (alRemove (alRemove md kWEOffsetX) kWEOffsetY) kWEOffsetZ
          Outcome.ok (some (ox.getD 0, oy.getD 0, oz.getD 0), some md2)
        else Outcome.ok (none, some md)
      | none => Outcome.ok (none, none)
  let metadata := match pom.2 with
    | some md => if md.isEmpty then none else some md
    | none => none
  let origin ← if version < 3 then
      match ← optIntArray nbt kOffset with
      | some arr =>
        (match arr.get? 0, arr.get? 1, arr.get? 2 with
          | some a, some b, some c => Outcome.ok (some (a, b, c))
          | _, _, _ => Outcome.fatal)
      | none => Outcome.ok none
    else Outcome.ok none
  let container ← if version = 3 then reqCompound nbt kBlocks else Outcome.ok nbt
  let bb ← read_block_container version (u32cast wS) (u32cast hS) (u32cast lS) container
  .ok
    { blocks := bb.1
      data_version := some (u32cast dataVersion)
      paste_offset := pom.1
      origin := origin
      biomes := none
      block_entities := bb.2
      metadata := metadata }

/-- `Schematic::deserialize` from `src/lib.rs`, applied to the root compound
of the gunzipped, decoded blob (the gzip/NBT layer is the external `nbt`
crate). -/
def Schematic.deserialize (root : NbtMap) : Outcome Schematic :=
  match alGet root kVersion with
  | some (.int v) =>
    let version := u32cast v
    if (alGet root kRegions).isSome then
      .error (.unsupportedFormat (.litematica version))
    else if version = 1 ∨ version = 2 then
      sponge_deserialize root version
    else .error .unrecognizedFormat
  | _ =>
    match alGet root kSchematic with
    | some (.compound sc) =>
      match alGet sc kVersion with
      | some (.int v) =>
        if u32cast v = 3 then sponge_deserialize root 3
        else .error .unrecognizedFormat
      | _ => .error .unrecognizedFormat
    | _ => .error .unrecognizedFormat

/-- The `Palette` compound written by `write_block_container`: each palette
name maps to its index as an `i32`. -/
def buildWirePalette (names : List String) : NbtMap :=
  names.enum.foldl (fun acc p => alInsert acc p.2 (.int (i32ofU32 p.1))) []

/-- The block-data encode loop of `write_block_container`: read each cell
via `get_block_id_at` in traversal order and emit its varint bytes. -/
def writeCells (b : Blocks) (ps : List (Nat × Nat × Nat)) : Outcome (List Nat) :=
  match ps with
  | [] => .ok []
  | (x, y, z) :: rest => do
    let id ← b.get_block_id_at x y z
    let tl ← writeCells b rest
    .ok (encodeVarint id ++ tl)

/-- `write_block_container` from `src/sponge.rs`.  The emitted bytes are
pushed as `i8` (`temp as i8`). -/
def write_block_container (version : Nat) (blocks : Blocks)
    (block_entities : List ((Nat × Nat × Nat) × BlockEntity)) (nbt : NbtMap) :
    Outcome NbtMap := do
  let nbt := alInsert nbt kPalette (.compound (buildWirePalette blocks.palette))
  let bytes ← writeCells blocks (traversal blocks.size_x blocks.size_y blocks.size_z)
  let dataName ← match version with
    | 2 => Outcome.ok kBlockData
    | 3 => Outcome.ok kData
    | _ => Outcome.fatal
  let nbt := alInsert nbt dataName (.byteArray (bytes.map natToI8))
  let bes := block_entities.map fun pb =>
    Value.compound (alInsert (alInsert pb.2.data kId (.string pb.2.id)) kPos
      (.intArray [i32ofU32 pb.1.1, i32ofU32 pb.1.2.1, i32ofU32 pb.1.2.2]))
  .ok (alInsert nbt kBlockEntities (.list bes))

/-- `serialize` from `src/sponge.rs`, producing the root compound that is
then handed to the external gzip writer. -/
def sponge_serialize (schem : Schematic) (version : Nat) : Outcome NbtMap := do
  let nbt : NbtMap := []
  let nbt := alInsert nbt kVersion (.int (i32ofU32 version))
  let dv ← match schem.data_version with
    | some d => Outcome.ok d
    | none => Outcome.error (.missingRequiredField kDataVersion)
  let nbt := alInsert nbt kDataVersion (.int (i32ofU32 dv))
  let wv ← tryIntoI16 schem.blocks.size_x kWidth
  let nbt := alInsert nbt kWidth (.short wv)
  let hv ← tryIntoI16 schem.blocks.size_y kHeight
  let nbt := alInsert nbt kHeight (.short hv)
  let lv ← tryIntoI16 schem.blocks.size_z kLength
  let nbt := alInsert nbt kLength (.short lv)
  -- The assembled metadata compound (paste offset folded into WEOffsetX/Y/Z
  -- for version < 3, merged with any passthrough metadata) is built and then
  -- dropped: the source never inserts it into the output compound.
  let _droppedMetadata : NbtMap :=
    if (decide (version < 3) && schem.paste_offset.isSome) || schem.metadata.isSome then
      let md := match schem.metadata with
        | some md => md
        | none => []
      if version < 3 then
        match schem.paste_offset with
        | some off =>
          alInsert (alInsert (alInsert md kWEOffsetX (.int off.1)) kWEOffsetY (.int off.2.1))
            kWEOffsetZ (.int off.2.2)
        | none => md
      else md
    else []
  let nbt ← if version = 3 then
      match schem.paste_offset with
      | some off => Outcome.ok (alInsert nbt kOffset (.intArray [off.1, off.2.1, off.2.2]))
      | none => Outcome.error (.missingRequiredField kOffset)
    else Outcome.ok nbt
  let nbt := if version < 3 then
      match schem.origin with
      | some o => alInsert nbt kOffset (.intArray [o.1, o.2.1, o.2.2])
      | none => nbt
    else nbt
  let nbt ← if version < 3 then
      write_block_container version schem.blocks schem.block_entities nbt
    else do
      let container ← write_block_container version schem.blocks schem.block_entities []
      Outcome.ok (alInsert nbt kBlocks (.compound container))
  match version with
  | 2 => Outcome.ok nbt
  | 3 => Outcome.ok (alInsert ([] : NbtMap) kSchematic (.compound nbt))
  | _ => Outcome.fatal

/-- `Schematic::serialize` from `src/lib.rs`: the `Sponge(version @ 3)`
pattern accepts only the Sponge version-3 target. -/
def Schematic.serialize (s : Schematic) (format : SchematicFormat) : Outcome NbtMap :=
  match format with
  | .sponge 3 => sponge_serialize s 3
  | _ => .error (.unsupportedFormat format)

/-- Serialize-then-deserialize at the version-3 target. -/
def roundTrip (s : Schematic) : Outcome Schematic :=
  (Schematic.serialize s (.sponge 3)).bind Schematic.deserialize

/-! ### Bit-level helper lemmas for the varint codec -/

theorem and255_eq_mod (n : Nat) : n &&& 255 = n % 256 := by
  have h : (255 : Nat) = 2 ^ 8 - 1 := by norm_num
  have h2 : (256 : Nat) = 2 ^ 8 := by norm_num
  rw [h, h2, Nat.and_pow_two_sub_one_eq_mod]

theorem and127_eq_mod (n : Nat) : n &&& 127 = n % 128 := by
  have h : (127 : Nat) = 2 ^ 7 - 1 := by norm_num
  have h2 : (128 : Nat) = 2 ^ 7 := by norm_num
  rw [h, h2, Nat.and_pow_two_sub_one_eq_mod]

theorem testBit_128 (i : Nat) : Nat.testBit 128 i = decide (i = 7) := by
  have h128 : (128 : Nat) = 2 ^ 7 := by norm_num
  rcases Decidable.em (i = 7) with hi | hi
  · subst hi
    decide
  · rw [h128, Nat.testBit_two_pow_of_ne (by omega)]
    simp [hi]

theorem testBit_255 (i : Nat) : Nat.testBit 255 i = decide (i < 8) := by
  have h : (255 : Nat) = 2 ^ 8 - 1 := by norm_num
  rw [h, Nat.testBit_two_pow_sub_one]

theorem testBit_127 (i : Nat) : Nat.testBit 127 i = decide (i < 7) := by
  have h : (127 : Nat) = 2 ^ 7 - 1 := by norm_num
  rw [h, Nat.testBit_two_pow_sub_one]

theorem and128_of_lt (n : Nat) (h : n < 128) : n &&& 128 = 0 := by
  apply Nat.eq_of_testBit_eq
  intro i
  rw [Nat.testBit_land, Nat.zero_testBit, testBit_128]
  rcases Decidable.em (i = 7) with hi | hi
  · subst hi
    have : Nat.testBit n 7 = false := by
      apply Nat.testBit_lt_two_pow
      norm_num
      omega
    simp [this]
  · simp [hi]

theorem orContinuation_and128 (n : Nat) : ((n &&& 255) ||| 128) &&& 128 = 128 := by
  apply Nat.eq_of_testBit_eq
  intro i
  rw [Nat.testBit_land, Nat.testBit_lor, testBit_128]
  rcases Decidable.em (i = 7) with hi | hi
  · simp [hi]
  · simp [hi]

theorem orContinuation_and127 (n : Nat) : ((n &&& 255) ||| 128) &&& 127 = n % 128 := by
  apply Nat.eq_of_testBit_eq
  intro i
  rw [Nat.testBit_land, Nat.testBit_lor, Nat.testBit_land, testBit_127, testBit_128,
    testBit_255]
  have h128 : (128 : Nat) = 2 ^ 7 := by norm_num
  rw [h128, Nat.testBit_mod_two_pow]
  rcases Nat.lt_or_ge i 7 with hi | hi
  · have h8 : i < 8 := by omega
    have hne : ¬(i = 7) := by omega
    simp [hi, h8, hne]
  · have h7 : ¬(i < 7) := by omega
    simp [h7]

/-- Splitting off the low 7 bits: the bit-identity behind one step of the
varint codec. -/
theorem varintSplit (n s : Nat) :
    ((n % 128) <<< s) ||| ((n >>> 7) <<< (s + 7)) = n <<< s := by
  apply Nat.eq_of_testBit_eq
  intro i
  rw [Nat.testBit_lor, Nat.testBit_shiftLeft, Nat.testBit_shiftLeft, Nat.testBit_shiftLeft,
    Nat.testBit_shiftRight]
  have h128 : (128 : Nat) = 2 ^ 7 := by norm_num
  rw [h128, Nat.testBit_mod_two_pow]
  by_cases h1 : s ≤ i
  · by_cases h2 : s + 7 ≤ i
    · have e1 : ¬(i - s < 7) := by omega
      have e2 : 7 + (i - (s + 7)) = i - s := by omega
      simp [ge_iff_le, h1, h2, e1, e2]
    · have e1 : i - s < 7 := by omega
      simp [ge_iff_le, h1, h2, e1]
  · have h2 : ¬(s + 7 ≤ i) := by omega
    simp [ge_iff_le, h1, h2]

theorem shiftRight7_eq_zero_iff (n : Nat) : n >>> 7 = 0 ↔ n < 128 := by
  rw [Nat.shiftRight_eq_div_pow]
  have : (2 : Nat) ^ 7 = 128 := by norm_num
  rw [this]
  omega

theorem encodeVarint_mem_lt (n : Nat) : ∀ b ∈ encodeVarint n, b < 256 := by
  induction n using Nat.strong_induction_on with
  | _ n ih =>
    rw [encodeVarint]
    split
    · intro b hb
      simp only [List.mem_singleton] at hb
      subst hb
      rw [and255_eq_mod]
      omega
    · rename_i h
      intro b hb
      simp only [List.mem_cons] at hb
      rcases hb with rfl | hb
      · have h1 : n &&& 255 < 2 ^ 8 := by
          rw [and255_eq_mod]
          omega
        have h2 : (128 : Nat) < 2 ^ 8 := by norm_num
        have := Nat.or_lt_two_pow h1 h2
        omega
      · have hlt : n >>> 7 < n := by
          rw [Nat.shiftRight_eq_div_pow]
          apply Nat.div_lt_self _ (by norm_num)
          rcases Nat.eq_zero_or_pos n with rfl | hp
          · exact absurd (Nat.zero_shiftRight 7) h
          · exact hp
        exact ih _ hlt b hb

theorem i8_cast_roundtrip (b : Nat) (h : b < 256) : i8toU8 (natToI8 b) = b := by
  unfold natToI8 i8toU8
  have hb : b % 256 = b := Nat.mod_eq_of_lt h
  rw [hb]
  split <;> omega

theorem map_i8_id (l : List Nat) (h : ∀ b ∈ l, b < 256) :
    l.map (fun b => i8toU8 (natToI8 b)) = l := by
  induction l with
  | nil => rfl
  | cons b t ih =>
    simp only [List.map_cons, List.cons.injEq]
    refine ⟨i8_cast_roundtrip b (h b (by simp)), ih (fun x hx => h x (by simp [hx]))⟩

theorem encodeVarint_map_i8 (n : Nat) :
    (encodeVarint n).map (fun b => i8toU8 (natToI8 b)) = encodeVarint n :=
  map_i8_id _ (encodeVarint_mem_lt n)

/-- Decoding an encoded id from the middle of the stream: the generalized
invariant of the reader loop against the writer loop. -/
theorem decodeVarintLoop_encodeVarint (n : Nat) : ∀ len acc : Nat, ∀ rest : List Nat,
    7 * len ≤ 28 → n < 2 ^ (32 - 7 * len) → acc < 2 ^ (7 * len) →
    decodeVarintLoop acc len (6 - len) (encodeVarint n ++ rest) =
      .ok (acc ||| n <<< (7 * len), rest) := by
  induction n using Nat.strong_induction_on with
  | _ n ih =>
    intro len acc rest hlen hn hacc
    have hlen4 : len ≤ 4 := by omega
    have hfuel : 6 - len = (5 - len) + 1 := by omega
    rw [encodeVarint]
    split
    · rename_i h
      have hn128 : n < 128 := (shiftRight7_eq_zero_iff n).mp h
      rw [hfuel]
      simp only [List.cons_append, List.nil_append, decodeVarintLoop]
      have hshift : ¬(32 ≤ 7 * len) := by omega
      rw [if_neg hshift]
      have hb127 : (n &&& 255) &&& 127 = n := by
        rw [and255_eq_mod, and127_eq_mod]
        omega
      have hb128 : (n &&& 255) &&& 128 = 0 := by
        rw [and255_eq_mod, Nat.mod_eq_of_lt (by omega)]
        exact and128_of_lt n hn128
      have hmod : (n <<< (7 * len)) % 2 ^ 32 = n <<< (7 * len) := by
        apply Nat.mod_eq_of_lt
        rw [Nat.shiftLeft_eq]
        calc n * 2 ^ (7 * len) < 2 ^ (32 - 7 * len) * 2 ^ (7 * len) :=
              (Nat.mul_lt_mul_right (pow_pos (by norm_num) _)).mpr hn
          _ = 2 ^ 32 := by rw [← Nat.pow_add]; congr 1; omega
      rw [hb127, hmod, hb128]
      norm_num
    · rename_i h
      have hn128 : ¬ n < 128 := fun hc => h ((shiftRight7_eq_zero_iff n).mpr hc)
      have hlen3 : len ≤ 3 := by
        by_contra hc
        have : len = 4 := by omega
        subst this
        have : n < 2 ^ 4 := by simpa using hn
        omega
      rw [hfuel]
      simp only [List.cons_append, decodeVarintLoop]
      have hshift : ¬(32 ≤ 7 * len) := by omega
      rw [if_neg hshift]
      rw [orContinuation_and128, orContinuation_and127]
      have hmod : ((n % 128) <<< (7 * len)) % 2 ^ 32 = (n % 128) <<< (7 * len) := by
        apply Nat.mod_eq_of_lt
        rw [Nat.shiftLeft_eq]
        calc n % 128 * 2 ^ (7 * len) < 128 * 2 ^ (7 * len) :=
              (Nat.mul_lt_mul_right (pow_pos (by norm_num) _)).mpr (by omega)
          _ = 2 ^ (7 * len + 7) := by rw [Nat.pow_add]; ring
          _ ≤ 2 ^ 32 := Nat.pow_le_pow_right (by norm_num) (by omega)
      rw [hmod]
      simp only [if_neg (by simp : ¬(128 ≠ 128))]
      have hrec : n >>> 7 < n := by
        rw [Nat.shiftRight_eq_div_pow]
        exact Nat.div_lt_self (by omega) (by norm_num)
      have hstep := ih (n >>> 7) hrec (len + 1) (acc ||| (n % 128) <<< (7 * len)) rest
        (by omega)
        (by
          rw [Nat.shiftRight_eq_div_pow]
          have : (2 : Nat) ^ 7 = 128 := by norm_num
          rw [this, Nat.div_lt_iff_lt_mul (by norm_num)]
          calc n < 2 ^ (32 - 7 * len) := hn
            _ = 2 ^ (32 - 7 * (len + 1)) * 128 := by
                rw [show (128 : Nat) = 2 ^ 7 by norm_num, ← Nat.pow_add]
                congr 1
                omega)
        (by
          apply Nat.or_lt_two_pow
          · calc acc < 2 ^ (7 * len) := hacc
              _ ≤ 2 ^ (7 * (len + 1)) := Nat.pow_le_pow_right (by norm_num) (by omega)
          · rw [Nat.shiftLeft_eq]
            calc n % 128 * 2 ^ (7 * len) < 128 * 2 ^ (7 * len) :=
                  (Nat.mul_lt_mul_right (pow_pos (by norm_num) _)).mpr (by omega)
              _ = 2 ^ (7 * (len + 1)) := by
                  rw [show (128 : Nat) = 2 ^ 7 by norm_num, ← Nat.pow_add]
                  congr 1
                  omega)
      have hfuel2 : 5 - len = 6 - (len + 1) := by omega
      have h7 : 7 * (len + 1) = 7 * len + 7 := by ring
      have heq : acc ||| (n % 128) <<< (7 * len) ||| (n >>> 7) <<< (7 * (len + 1)) =
          acc ||| n <<< (7 * len) := by
        rw [Nat.lor_assoc, h7, varintSplit]
      rw [hfuel2, hstep, heq]

/-- Round trip of a single id through the writer's encoder and the reader's
decoder, including the `u8 -> i8 -> u8` cast chain the byte array goes
through. -/
theorem decodeVarint_encodeVarint (n : Nat) (hn : n < 2 ^ 32) (rest : List Nat) :
    decodeVarint ((encodeVarint n).map (fun b => i8toU8 (natToI8 b)) ++ rest) =
      .ok (n, rest) := by
  rw [encodeVarint_map_i8]
  have := decodeVarintLoop_encodeVarint n 0 0 rest (by omega) (by simpa using hn)
    (by norm_num)
  simpa [decodeVarint] using this

theorem encodeVarint_length_min (n : Nat) : ∀ k : Nat, 0 < k → n < 128 ^ k →
    (encodeVarint n).length ≤ k := by
  induction n using Nat.strong_induction_on with
  | _ n ih =>
    intro k hk hn
    rw [encodeVarint]
    split
    · simp only [List.length_singleton]
      omega
    · rename_i h
      have hn128 : 128 ≤ n := by
        by_contra hc
        exact h ((shiftRight7_eq_zero_iff n).mpr (by omega))
      have hk2 : 2 ≤ k := by
        rcases Nat.lt_or_ge k 2 with hc | hc
        · interval_cases k
          · simp at hn
            omega
        · exact hc
      have hrec : n >>> 7 < n := by
        rw [Nat.shiftRight_eq_div_pow]
        exact Nat.div_lt_self (by omega) (by norm_num)
      have hdiv : n >>> 7 < 128 ^ (k - 1) := by
        rw [Nat.shiftRight_eq_div_pow]
        have : (2 : Nat) ^ 7 = 128 := by norm_num
        rw [this, Nat.div_lt_iff_lt_mul (by norm_num)]
        calc n < 128 ^ k := hn
          _ = 128 ^ (k - 1) * 128 := by
              rw [← Nat.pow_succ]
              congr 1
              omega
      have := ih (n >>> 7) hrec (k - 1) (by omega) hdiv
      simp only [List.length_cons]
      omega

/-- C7: For every palette id in the range [0, 2^32), encoding it with the
write path's 7-bit-group continuation-bit scheme (including the `u8 → i8 →
u8` cast chain the emitted byte array goes through) and then decoding the
resulting bytes with the read path's varint decoder yields the original
value and consumes exactly the encoded bytes; and the encoding uses the
minimum number of bytes: it fits in any byte budget `k ≥ 1` whose 7-bit
groups can represent the value (no superfluous continuation bytes). -/
theorem varint_roundtrip_minimal (n : Nat) (hn : n < 2 ^ 32) (rest : List Nat) :
    decodeVarint ((encodeVarint n).map (fun b => i8toU8 (natToI8 b)) ++ rest) =
      .ok (n, rest) ∧
    ∀ k : Nat, 0 < k → n < 128 ^ k → (encodeVarint n).length ≤ k :=
  ⟨decodeVarint_encodeVarint n hn rest, encodeVarint_length_min n⟩

theorem varint_roundtrip_minimal_witness :
    decodeVarint ((encodeVarint 4294967295).map (fun b => i8toU8 (natToI8 b)) ++ []) =
      .ok (4294967295, []) ∧ (encodeVarint 4294967295).length ≤ 5 :=
  ⟨(varint_roundtrip_minimal 4294967295 (by norm_num) []).1,
    (varint_roundtrip_minimal 4294967295 (by norm_num) []).2 5 (by norm_num) (by norm_num)⟩

/-! ### Generic lemmas: `Outcome`, association lists, casts -/

@[simp] theorem Outcome.bind_ok (a : α) (f : α → Outcome β) :
    Outcome.bind (.ok a) f = f a := rfl

@[simp] theorem Outcome.bind_error (e : SchematicError) (f : α → Outcome β) :
    Outcome.bind (.error e) f = .error e := rfl

@[simp] theorem Outcome.bind_fatal (f : α → Outcome β) :
    Outcome.bind .fatal f = .fatal := rfl

@[simp] theorem Outcome.bindOp_eq (x : Outcome α) (f : α → Outcome β) :
    x >>= f = Outcome.bind x f := rfl

@[simp] theorem Outcome.pure_eq (a : α) : (pure a : Outcome α) = .ok a := rfl

theorem alGet_insert_self [BEq κ] [LawfulBEq κ] (m : List (κ × α)) (k : κ) (v : α) :
    alGet (alInsert m k v) k = some v := by
  induction m with
  | nil => simp [alGet, alInsert]
  | cons p rest ih =>
    obtain ⟨k0, v0⟩ := p
    by_cases h : k0 == k
    · simp [alGet, alInsert, h]
    · simp only [alGet, alInsert, h, Bool.false_eq_true, if_false]
      exact ih

theorem alGet_insert_ne [BEq κ] [LawfulBEq κ] (m : List (κ × α)) (k k2 : κ) (v : α)
    (h : ¬(k = k2)) : alGet (alInsert m k v) k2 = alGet m k2 := by
  induction m with
  | nil =>
    have hne : ¬((k == k2) = true) := by simp [h]
    simp [alGet, alInsert, hne]
  | cons p rest ih =>
    obtain ⟨k0, v0⟩ := p
    by_cases hp : k0 == k
    · have hk0 : k0 = k := by simpa using hp
      have hne : ¬((k0 == k2) = true) := by
        subst hk0
        simp [h]
      simp [alGet, alInsert, hp, hne]
    · simp only [alGet, alInsert, hp, Bool.false_eq_true, if_false]
      by_cases hq : k0 == k2
      · simp [alGet, hq]
      · simp only [alGet, hq, Bool.false_eq_true, if_false]
        exact ih

theorem alGet_cons (k0 : κ) (v0 : α) (rest : List (κ × α)) (k : κ) [BEq κ] :
    alGet ((k0, v0) :: rest) k = if k0 == k then some v0 else alGet rest k := rfl

theorem alRemove_cons (k0 : κ) (v0 : α) (rest : List (κ × α)) (k : κ) [BEq κ] :
    alRemove ((k0, v0) :: rest) k =
      if k0 == k then alRemove rest k else (k0, v0) :: alRemove rest k := by
  simp only [alRemove, List.filter_cons]
  by_cases h : k0 == k
  · simp [h]
  · simp [h]

theorem alGet_remove_self [BEq κ] [LawfulBEq κ] (m : List (κ × α)) (k : κ) :
    alGet (alRemove m k) k = none := by
  induction m with
  | nil => simp [alGet, alRemove]
  | cons p rest ih =>
    obtain ⟨k0, v0⟩ := p
    rw [alRemove_cons]
    by_cases h : k0 == k
    · rw [if_pos h]
      exact ih
    · rw [if_neg h, alGet_cons, if_neg h]
      exact ih

theorem alGet_remove_ne [BEq κ] [LawfulBEq κ] (m : List (κ × α)) (k k2 : κ)
    (h : ¬(k = k2)) : alGet (alRemove m k) k2 = alGet m k2 := by
  induction m with
  | nil => simp [alGet, alRemove]
  | cons p rest ih =>
    obtain ⟨k0, v0⟩ := p
    rw [alRemove_cons]
    by_cases hp : k0 == k
    · have hk0 : k0 = k := by simpa using hp
      have hne : ¬((k0 == k2) = true) := by
        subst hk0
        simp [h]
      rw [if_pos hp, alGet_cons, if_neg hne]
      exact ih
    · rw [if_neg hp, alGet_cons, alGet_cons]
      by_cases hq : k0 == k2
      · rw [if_pos hq, if_pos hq]
      · rw [if_neg hq, if_neg hq]
        exact ih

/-! ### The `Blocks` invariant and its preservation -/

/-- The `Blocks` invariant stated by the spec (§3): a dense index array,
every stored id a valid palette index, and `palette_map[name] == i` iff
`palette[i] == name`. -/
def BlocksWF (b : Blocks) : Prop :=
  b.indices.length = b.size_x * b.size_y * b.size_z ∧
  (∀ i ∈ b.indices, i < b.palette.length) ∧
  (∀ n i, alGet b.palette_map n = some i ↔ b.palette.get? i = some n)

/-- The linearization `x*sy*sz + y*sz + z` stays inside the dense array. -/
theorem block_index_lt (sx sy sz x y z : Nat) (hx : x < sx) (hy : y < sy) (hz : z < sz) :
    x * sy * sz + y * sz + z < sx * sy * sz := by
  have h1 : x * sy + y + 1 ≤ sx * sy := by
    calc x * sy + y + 1 ≤ x * sy + sy := by omega
      _ = (x + 1) * sy := by ring
      _ ≤ sx * sy := Nat.mul_le_mul_right _ hx
  calc x * sy * sz + y * sz + z < x * sy * sz + y * sz + sz := by omega
    _ = (x * sy + y + 1) * sz := by ring
    _ ≤ sx * sy * sz := by
        calc (x * sy + y + 1) * sz ≤ sx * sy * sz := Nat.mul_le_mul_right _ h1

theorem get?_append_singleton (l : List α) (a : α) (i : Nat) :
    (l ++ [a]).get? i =
      if i < l.length then l.get? i else if i = l.length then some a else none := by
  by_cases h : i < l.length
  · rw [List.get?_append h, if_pos h]
  · rw [List.get?_append_right (by omega), if_neg h]
    by_cases h2 : i = l.length
    · subst h2
      simp
    · rw [if_neg h2]
      cases hd : i - l.length with
      | zero => omega
      | succ j => simp

theorem blocksWF_new (sx sy sz : Nat) (init : String) :
    BlocksWF (Blocks.new sx sy sz init) := by
  refine ⟨by simp [Blocks.new], ?_, ?_⟩
  · intro i hi
    simp only [Blocks.new] at hi ⊢
    have := List.eq_of_mem_replicate hi
    simp [this]
  · intro n i
    simp only [Blocks.new]
    by_cases hn : init = n
    · subst hn
      rw [alGet_cons]
      simp only [beq_self_eq_true, if_true]
      cases i with
      | zero => simp
      | succ j => simp
    · rw [alGet_cons, if_neg (by simp [hn]), alGet]
      cases i with
      | zero => simp [hn]
      | succ j => simp

/-- Everything `get_block_id_for` guarantees: the invariant is preserved,
the returned id points at the requested name, existing palette entries are
untouched, and the grid data is untouched. -/
theorem get_block_id_for_spec (b : Blocks) (s : String) (h : BlocksWF b) :
    BlocksWF (b.get_block_id_for s).2 ∧
    (b.get_block_id_for s).1 < (b.get_block_id_for s).2.palette.length ∧
    (b.get_block_id_for s).2.palette.get? (b.get_block_id_for s).1 = some s ∧
    (∀ i, i < b.palette.length →
      (b.get_block_id_for s).2.palette.get? i = b.palette.get? i) ∧
    b.palette.length ≤ (b.get_block_id_for s).2.palette.length ∧
    (b.get_block_id_for s).2.indices = b.indices ∧
    (b.get_block_id_for s).2.size_x = b.size_x ∧
    (b.get_block_id_for s).2.size_y = b.size_y ∧
    (b.get_block_id_for s).2.size_z = b.size_z := by
  obtain ⟨hlen, hmem, hmap⟩ := h
  unfold Blocks.get_block_id_for
  cases hm : alGet b.palette_map s with
  | some id =>
    have hget : b.palette.get? id = some s := (hmap s id).mp hm
    have hlt : id < b.palette.length := by
      rcases List.get?_eq_some.mp hget with ⟨hl, _⟩
      exact hl
    exact ⟨⟨hlen, hmem, hmap⟩, hlt, hget, fun i _ => rfl, le_refl _, rfl, rfl, rfl, rfl⟩
  | none =>
    have hsgone : ∀ i, ¬(b.palette.get? i = some s) := by
      intro i hc
      rw [← hmap s i] at hc
      rw [hm] at hc
      exact Option.noConfusion hc
    have hnewmap : ∀ n i,
        alGet (alInsert b.palette_map s b.palette.length) n = some i ↔
          (b.palette ++ [s]).get? i = some n := by
      intro n i
      rw [get?_append_singleton]
      by_cases hn : s = n
      · subst hn
        rw [alGet_insert_self]
        constructor
        · intro he
          have : i = b.palette.length := by
            injection he with he2
            omega
          subst this
          rw [if_neg (by omega), if_pos rfl]
        · intro he
          by_cases hi : i < b.palette.length
          · rw [if_pos hi] at he
            exact absurd he (hsgone i)
          · rw [if_neg hi] at he
            by_cases hi2 : i = b.palette.length
            · simp [hi2]
            · rw [if_neg hi2] at he
              exact Option.noConfusion he
      · rw [alGet_insert_ne _ _ _ _ hn]
        rw [hmap n i]
        by_cases hi : i < b.palette.length
        · rw [if_pos hi]
        · rw [if_neg hi]
          have hnone : b.palette.get? i = none := by
            cases hg : b.palette.get? i with
            | none => rfl
            | some a =>
              rcases List.get?_eq_some.mp hg with ⟨hl, _⟩
              omega
          rw [hnone]
          by_cases hi2 : i = b.palette.length
          · rw [if_pos hi2]
            constructor
            · intro hc
              exact Option.noConfusion hc
            · intro hc
              injection hc with hc2
              exact absurd hc2 hn
          · rw [if_neg hi2]
    refine ⟨⟨hlen, ?_, hnewmap⟩, ?_, ?_, ?_, ?_, rfl, rfl, rfl, rfl⟩
    · intro i hi
      have hi2 : i ∈ b.indices := hi
      show i < (b.palette ++ [s]).length
      simp only [List.length_append, List.length_singleton]
      have := hmem i hi2
      omega
    · show b.palette.length < (b.palette ++ [s]).length
      simp
    · show (b.palette ++ [s]).get? b.palette.length = some s
      rw [get?_append_singleton, if_neg (by omega), if_pos rfl]
    · intro i hi
      show (b.palette ++ [s]).get? i = b.palette.get? i
      rw [get?_append_singleton, if_pos hi]
    · show b.palette.length ≤ (b.palette ++ [s]).length
      simp

theorem set_block_id_at_wf (b : Blocks) (x y z id : Nat) (b2 : Blocks)
    (h : BlocksWF b) (hid : id < b.palette.length)
    (hset : b.set_block_id_at x y z id = .ok b2) : BlocksWF b2 := by
  obtain ⟨hlen, hmem, hmap⟩ := h
  unfold Blocks.set_block_id_at at hset
  by_cases h1 : b.inBounds x y z
  · rw [if_pos h1] at hset
    by_cases h2 : b.block_index_at x y z < b.indices.length
    · rw [if_pos h2] at hset
      injection hset with hb2
      subst hb2
      refine ⟨by simpa using hlen, ?_, hmap⟩
      intro i hi
      rcases List.mem_or_eq_of_mem_set hi with hi2 | rfl
      · exact hmem i hi2
      · exact hid
    · rw [if_neg h2] at hset
      exact Outcome.noConfusion hset
  · rw [if_neg h1] at hset
    exact Outcome.noConfusion hset

theorem get_block_at_ok (b : Blocks) (x y z : Nat) (h : BlocksWF b)
    (hx : x < b.size_x) (hy : y < b.size_y) (hz : z < b.size_z) :
    ∃ nm, b.get_block_at x y z = .ok nm := by
  obtain ⟨hlen, hmem, _⟩ := h
  have hin : b.inBounds x y z = true := by
    simp [Blocks.inBounds, hx, hy, hz]
  have hidx : b.block_index_at x y z < b.indices.length := by
    rw [hlen]
    exact block_index_lt _ _ _ _ _ _ hx hy hz
  have hget : b.indices.get? (b.block_index_at x y z) =
      some (b.indices.get ⟨_, hidx⟩) := List.get?_eq_get hidx
  have hmemi : b.indices.get ⟨_, hidx⟩ ∈ b.indices := List.get?_mem hget
  have hidlt := hmem _ hmemi
  have hpget : b.palette.get? (b.indices.get ⟨_, hidx⟩) =
      some (b.palette.get ⟨_, hidlt⟩) := List.get?_eq_get hidlt
  refine ⟨b.palette.get ⟨_, hidlt⟩, ?_⟩
  unfold Blocks.get_block_at Blocks.get_block_id_at
  rw [if_pos hin, hget]
  simp only [Outcome.bind_ok]
  rw [hpget]

/-- C8 (amended): the invariant "every entry of `indices` is a valid palette
index" (together with dense-array length and `palette_map` consistency,
`BlocksWF`) holds for `Blocks::new` and is preserved by `set_block_at`,
by `get_block_id_for` (whose returned id is always a valid palette index),
and by `set_block_id_at` when the written id is a valid palette index —
the source `set_block_id_at` writes any raw id unchecked, so validity of
the argument is the caller's obligation; under the invariant,
`get_block_at` at an in-bounds position never reads past the palette. -/
theorem blocks_invariant_ops :
    (∀ sx sy sz init, BlocksWF (Blocks.new sx sy sz init)) ∧
    (∀ b s, BlocksWF b → BlocksWF (b.get_block_id_for s).2 ∧
      (b.get_block_id_for s).1 < (b.get_block_id_for s).2.palette.length) ∧
    (∀ b x y z s b2, BlocksWF b → b.set_block_at x y z s = .ok b2 → BlocksWF b2) ∧
    (∀ b x y z id b2, BlocksWF b → id < b.palette.length →
      b.set_block_id_at x y z id = .ok b2 → BlocksWF b2) ∧
    (∀ b x y z, BlocksWF b → x < b.size_x → y < b.size_y → z < b.size_z →
      ∃ nm, b.get_block_at x y z = .ok nm) := by
  refine ⟨blocksWF_new, ?_, ?_, set_block_id_at_wf, get_block_at_ok⟩
  · intro b s h
    have := get_block_id_for_spec b s h
    exact ⟨this.1, this.2.1⟩
  · intro b x y z s b2 h hset
    unfold Blocks.set_block_at at hset
    have hspec := get_block_id_for_spec b s h
    exact set_block_id_at_wf _ x y z _ b2 hspec.1
      (by
        have := hspec.2.1
        exact this) hset

theorem blocks_invariant_ops_witness :
    BlocksWF ((Blocks.new 1 1 1 kAir).get_block_id_for kStone).2 :=
  (blocks_invariant_ops.2.1 (Blocks.new 1 1 1 kAir) kStone
    (blocks_invariant_ops.1 1 1 1 kAir)).1

/-- C8 counterexample: `set_block_id_at` accepts an arbitrary raw id, so a
single call on a freshly created 1×1×1 container stores id 5 while the
palette has a single entry — the indices array then contains an id that is
not a valid palette index. -/
theorem set_block_id_at_breaks_invariant :
    (Blocks.new 1 1 1 kAir).set_block_id_at 0 0 0 5 =
      .ok { palette := [kAir], palette_map := [(kAir, 0)], indices := [5],
            size_x := 1, size_y := 1, size_z := 1 } ∧
    ¬(5 < [kAir].length) := ⟨rfl, by simp⟩

theorem u32cast_ofNat (n : Nat) (h : n < 2 ^ 32) : u32cast (n : Int) = n := by
  unfold u32cast
  omega

theorem u32cast_i32ofU32 (n : Nat) (h : n < 2 ^ 32) : u32cast (i32ofU32 n) = n := by
  unfold u32cast i32ofU32
  split <;> omega

/-! ### Concrete fixture documents and schematics -/

/-- `Outcome::map`. -/
def Outcome.map {γ δ : Type} (f : γ → δ) : Outcome γ → Outcome δ
  | .ok a => .ok (f a)
  | .error e => .error e
  | .fatal => .fatal

/-- A minimal well-formed `Schematic` value. -/
def schemSimple : Schematic :=
  { blocks := Blocks.new 1 1 1 kAir
    origin := none
    paste_offset := some (1, 2, 3)
    biomes := none
    data_version := some 100
    block_entities := []
    metadata := none }

/-- An empty placeholder `Schematic`. -/
def emptySchem : Schematic :=
  { blocks := Blocks.new 0 0 0 kAir
    origin := none
    paste_offset := none
    biomes := none
    data_version := none
    block_entities := []
    metadata := none }

/-- A complete, well-formed version-1 document (1×1×1, all-air). -/
def docV1 : NbtMap :=
  [(kVersion, .int 1), (kDataVersion, .int 100), (kWidth, .short 1), (kHeight, .short 1),
   (kLength, .short 1), (kPalette, .compound [(kAir, .int 0)]), (kBlockData, .byteArray [0])]

/-- A version-2 document whose block-data byte array is truncated: the
dimensions declare 1×1×2 = 2 cells but only one byte is present. -/
def docTrunc : NbtMap :=
  [(kVersion, .int 2), (kDataVersion, .int 100), (kWidth, .short 1), (kHeight, .short 1),
   (kLength, .short 2), (kPalette, .compound [(kAir, .int 0)]), (kBlockData, .byteArray [0])]

/-- A version-2 document whose block data references wire id 1, absent from
the palette mapping. -/
def docBadWire : NbtMap :=
  [(kVersion, .int 2), (kDataVersion, .int 100), (kWidth, .short 1), (kHeight, .short 1),
   (kLength, .short 1), (kPalette, .compound [(kStone, .int 0)]), (kBlockData, .byteArray [1])]

/-- A version-2 document whose root `Offset` integer array has only two
elements. -/
def docShortOffset : NbtMap :=
  [(kVersion, .int 2), (kDataVersion, .int 100), (kWidth, .short 1), (kHeight, .short 1),
   (kLength, .short 1), (kOffset, .intArray [1, 2]),
   (kPalette, .compound [(kAir, .int 0)]), (kBlockData, .byteArray [0])]

/-- A document with both a root integer `Version` tag and a `Regions` tag. -/
def docLitematica : NbtMap :=
  [(kVersion, .int 5), (kRegions, .list [])]

/-! ### C2: accepted serialization targets -/

/-- C2 counterexample: the claim says the Sponge version-2 target is
accepted, but `Schematic::serialize` (pattern `Sponge(version @ 3)`)
rejects it with `UnsupportedFormat(Sponge(2))` even on a fully
serializable schematic. -/
theorem serialize_sponge2_unsupported :
    Schematic.serialize schemSimple (.sponge 2) =
      .error (.unsupportedFormat (.sponge 2)) := rfl

/-- C2 (amended): `Schematic::serialize` accepts exactly the Sponge
version-3 target (dispatching to the sponge serializer); every other
format/version combination — Litematica, Schematica, Sponge 1, Sponge 2,
and Sponge versions above 3 — returns `UnsupportedFormat` carrying that
format and version. -/
theorem serialize_accepts_only_sponge3 (s : Schematic) (format : SchematicFormat) :
    Schematic.serialize s format =
      if format = .sponge 3 then sponge_serialize s 3
      else .error (.unsupportedFormat format) := by
  cases format with
  | sponge v =>
    match v with
    | 0 => rfl
    | 1 => rfl
    | 2 => rfl
    | 3 => rfl
    | v + 4 => rfl
  | litematica v => rfl
  | schematica f => rfl

/-! ### C5: version-1 dispatch -/

/-- C5 counterexample: a complete, well-formed version-1 document is not
decoded like a version-2 one; `sponge::deserialize` rejects version 1 and
the result is `UnsupportedFormat(Sponge(1))`. -/
theorem deserialize_v1_unsupported :
    Schematic.deserialize docV1 = .error (.unsupportedFormat (.sponge 1)) := rfl

/-- C5 (amended): a root integer `Version` tag of 1 or 2 (with no
`Regions` tag) dispatches to the version-2-family reader
`sponge::deserialize` with that version number, but that reader decodes
only version 2: it rejects version 1 with `UnsupportedFormat(Sponge(1))`
before reading any field. -/
theorem dispatch_v1_v2 :
    (∀ root : NbtMap, ∀ v : Int, alGet root kVersion = some (.int v) →
      alGet root kRegions = none → (u32cast v = 1 ∨ u32cast v = 2) →
      Schematic.deserialize root = sponge_deserialize root (u32cast v)) ∧
    (∀ root : NbtMap, sponge_deserialize root 1 =
      .error (.unsupportedFormat (.sponge 1))) := by
  constructor
  · intro root v hver hreg hv
    simp only [Schematic.deserialize, hver]
    rw [hreg]
    simp only [Option.isSome_none, Bool.false_eq_true, if_false]
    rw [if_pos hv]
  · intro root
    rfl

theorem dispatch_v1_v2_witness :
    Schematic.deserialize docV1 = sponge_deserialize docV1 (u32cast 1) :=
  dispatch_v1_v2.1 docV1 1 rfl rfl (Or.inl (by norm_num [u32cast]))

/-! ### C6: Litematica rejection and unrecognized formats -/

/-- C6: a decompressed document whose root has an integer `Version` tag and
a `Regions` tag is rejected as `UnsupportedFormat(Litematica(version))`
regardless of the version value, without any further parsing; and a
document with neither a root integer `Version` tag nor a nested
`Schematic` compound whose integer `Version` casts to 3 is rejected as
`UnrecognizedFormat`. -/
theorem format_dispatch_rejections :
    (∀ root : NbtMap, ∀ v : Int, alGet root kVersion = some (.int v) →
      (alGet root kRegions).isSome →
      Schematic.deserialize root = .error (.unsupportedFormat (.litematica (u32cast v)))) ∧
    (∀ root : NbtMap, (∀ v : Int, ¬(alGet root kVersion = some (.int v))) →
      (∀ sc : NbtMap, ∀ v : Int, alGet root kSchematic = some (.compound sc) →
        alGet sc kVersion = some (.int v) → ¬(u32cast v = 3)) →
      Schematic.deserialize root = .error .unrecognizedFormat) := by
  constructor
  · intro root v hver hreg
    simp only [Schematic.deserialize, hver]
    rw [if_pos hreg]
  · intro root h1 h2
    simp only [Schematic.deserialize]
    split
    · rename_i sc hsc
      split
      · rename_i w hscv
        rw [if_neg (h2 sc w hsc hscv)]
      · rfl
    · rfl

theorem format_dispatch_rejections_witness :
    Schematic.deserialize docLitematica =
      .error (.unsupportedFormat (.litematica (u32cast 5))) ∧
    Schematic.deserialize [] = .error .unrecognizedFormat :=
  ⟨format_dispatch_rejections.1 docLitematica 5 rfl rfl,
    format_dispatch_rejections.2 []
      (by
        intro v h
        simp [alGet] at h)
      (by
        intro sc v h
        simp [alGet] at h)⟩

/-! ### C4: totality of deserialization and its fatal faults -/

/-- C4 counterexample: a gunzippable version-2 document whose block data
references a wire id absent from the `Palette` mapping makes `deserialize`
hit the panicking `HashMap` index on the wire palette: the result is a
fatal fault, not a returned error. -/
theorem deserialize_badwire_fatal : Schematic.deserialize docBadWire = .fatal := rfl

/-- C4 (amended): for every input document, `deserialize` either fully
succeeds, returns a `SchematicError` value, or hits a fatal fault; no other
outcome exists and no partial result is produced.  Contrary to the claim,
a truncated block-data byte array, a wire id absent from the `Palette`
mapping, and a short root `Offset` integer array are fatal faults
(out-of-bounds `Vec`/`HashMap` indexing), not returned errors; the
bounds-check panic on `Blocks` is not the only fatal behaviour. -/
theorem deserialize_total_or_fatal :
    (∀ root : NbtMap, (∃ s, Schematic.deserialize root = .ok s) ∨
      (∃ e, Schematic.deserialize root = .error e) ∨
      Schematic.deserialize root = .fatal) ∧
    Schematic.deserialize docTrunc = .fatal ∧
    Schematic.deserialize docBadWire = .fatal ∧
    Schematic.deserialize docShortOffset = .fatal := by
  refine ⟨?_, rfl, rfl, rfl⟩
  intro root
  cases h : Schematic.deserialize root with
  | ok s => exact Or.inl ⟨s, rfl⟩
  | error e => exact Or.inr (Or.inl ⟨e, rfl⟩)
  | fatal => exact Or.inr (Or.inr rfl)


/-! ### C10 and C3: the serializer never emits a Metadata tag -/

theorem Outcome.bind_eq_ok {γ δ : Type} {x : Outcome γ} {f : γ → Outcome δ} {b : δ}
    (h : Outcome.bind x f = .ok b) : ∃ a, x = .ok a ∧ f a = .ok b := by
  cases x with
  | ok a => exact ⟨a, rfl, h⟩
  | error e => exact Outcome.noConfusion h
  | fatal => exact Outcome.noConfusion h

/-- `write_block_container` only inserts the keys `Palette`, the
version-dependent data field, and `BlockEntities`; every other key keeps
its binding from the incoming compound. -/
theorem write_block_container_get (v : Nat) (b : Blocks)
    (bes : List ((Nat × Nat × Nat) × BlockEntity)) (nbt w : NbtMap) (k : String)
    (h1 : ¬(kPalette = k)) (h2 : ¬(kBlockData = k)) (h3 : ¬(kData = k))
    (h4 : ¬(kBlockEntities = k)) (h : write_block_container v b bes nbt = .ok w) :
    alGet w k = alGet nbt k := by
  simp only [write_block_container, Outcome.bindOp_eq] at h
  obtain ⟨bytes, hbytes, h⟩ := Outcome.bind_eq_ok h
  simp only [Outcome.bind_ok, Outcome.bind_fatal] at h
  split at h
  · injection h with hw
    subst hw
    rw [alGet_insert_ne _ _ _ _ h4, alGet_insert_ne _ _ _ _ h2, alGet_insert_ne _ _ _ _ h1]
  · injection h with hw
    subst hw
    rw [alGet_insert_ne _ _ _ _ h4, alGet_insert_ne _ _ _ _ h3, alGet_insert_ne _ _ _ _ h1]
  · exact Outcome.noConfusion h

/-- The root compound assembled by `sponge_serialize` at version 2, when it
succeeds, binds no key other than `Version`, `DataVersion`, `Width`,
`Height`, `Length`, `Offset`, `Palette`, `BlockData`, `BlockEntities`. -/
theorem sponge_serialize2_get (s : Schematic) (doc : NbtMap) (k : String)
    (hk : ¬(kVersion = k) ∧ ¬(kDataVersion = k) ∧ ¬(kWidth = k) ∧ ¬(kHeight = k) ∧
      ¬(kLength = k) ∧ ¬(kOffset = k) ∧ ¬(kPalette = k) ∧ ¬(kBlockData = k) ∧
      ¬(kData = k) ∧ ¬(kBlockEntities = k))
    (h : sponge_serialize s 2 = .ok doc) : alGet doc k = none := by
  obtain ⟨k1, k2, k3, k4, k5, k6, k7, k8, k9, k10⟩ := hk
  simp only [sponge_serialize, Outcome.bindOp_eq] at h
  cases hdv : s.data_version with
  | none =>
    rw [hdv] at h
    exact Outcome.noConfusion h
  | some dv =>
    rw [hdv] at h
    by_cases hx : s.blocks.size_x ≤ 32767
    · by_cases hy : s.blocks.size_y ≤ 32767
      · by_cases hz : s.blocks.size_z ≤ 32767
        · simp only [tryIntoI16, if_pos hx, if_pos hy, if_pos hz, Outcome.bind_ok] at h
          norm_num at h
          obtain ⟨w, hw, h⟩ := Outcome.bind_eq_ok h
          injection h with hdoc
          subst hdoc
          cases ho : s.origin with
          | some o =>
            rw [ho] at hw
            rw [write_block_container_get 2 _ _ _ _ k k7 k8 k9 k10 hw]
            rw [alGet_insert_ne _ _ _ _ k6, alGet_insert_ne _ _ _ _ k5,
              alGet_insert_ne _ _ _ _ k4, alGet_insert_ne _ _ _ _ k3,
              alGet_insert_ne _ _ _ _ k2, alGet_insert_ne _ _ _ _ k1]
            rfl
          | none =>
            rw [ho] at hw
            rw [write_block_container_get 2 _ _ _ _ k k7 k8 k9 k10 hw]
            rw [alGet_insert_ne _ _ _ _ k5, alGet_insert_ne _ _ _ _ k4,
              alGet_insert_ne _ _ _ _ k3, alGet_insert_ne _ _ _ _ k2,
              alGet_insert_ne _ _ _ _ k1]
            rfl
        · simp [tryIntoI16, hx, hy, hz] at h
      · simp [tryIntoI16, hx, hy] at h
    · simp [tryIntoI16, hx] at h

/-- At version 3 the root compound holds only the `Schematic` wrapper, and
the wrapped compound binds no key other than `Version`, `DataVersion`,
`Width`, `Height`, `Length`, `Offset`, `Palette`, `Data`, `BlockEntities`,
`Blocks`. -/
theorem sponge_serialize3_get (s : Schematic) (doc : NbtMap) (k : String)
    (hroot : ¬(kSchematic = k))
    (hk : ¬(kVersion = k) ∧ ¬(kDataVersion = k) ∧ ¬(kWidth = k) ∧ ¬(kHeight = k) ∧
      ¬(kLength = k) ∧ ¬(kOffset = k) ∧ ¬(kPalette = k) ∧ ¬(kBlockData = k) ∧
      ¬(kData = k) ∧ ¬(kBlockEntities = k) ∧ ¬(kBlocks = k))
    (h : sponge_serialize s 3 = .ok doc) :
    alGet doc k = none ∧
    ∀ inner, alGet doc kSchematic = some (.compound inner) → alGet inner k = none := by
  obtain ⟨k1, k2, k3, k4, k5, k6, k7, k8, k9, k10, k11⟩ := hk
  simp only [sponge_serialize, Outcome.bindOp_eq] at h
  cases hdv : s.data_version with
  | none =>
    rw [hdv] at h
    exact Outcome.noConfusion h
  | some dv =>
    rw [hdv] at h
    by_cases hx : s.blocks.size_x ≤ 32767
    · by_cases hy : s.blocks.size_y ≤ 32767
      · by_cases hz : s.blocks.size_z ≤ 32767
        · simp only [tryIntoI16, if_pos hx, if_pos hy, if_pos hz, Outcome.bind_ok] at h
          norm_num at h
          cases hpo : s.paste_offset with
          | none =>
            rw [hpo] at h
            exact Outcome.noConfusion h
          | some off =>
            rw [hpo] at h
            simp only [Outcome.bind_ok] at h
            obtain ⟨container, hcont, h⟩ := Outcome.bind_eq_ok h
            injection h with hdoc
            subst hdoc
            constructor
            · rw [alGet_insert_ne _ _ _ _ hroot]
              rfl
            · intro inner hinner
              rw [alGet_insert_self] at hinner
              injection hinner with hinner
              injection hinner with hinner
              subst hinner
              rw [alGet_insert_ne _ _ _ _ k11]
              rw [alGet_insert_ne _ _ _ _ k6, alGet_insert_ne _ _ _ _ k5,
                alGet_insert_ne _ _ _ _ k4, alGet_insert_ne _ _ _ _ k3,
                alGet_insert_ne _ _ _ _ k2, alGet_insert_ne _ _ _ _ k1]
              rfl
        · simp [tryIntoI16, hx, hy, hz] at h
      · simp [tryIntoI16, hx, hy] at h
    · simp [tryIntoI16, hx] at h

/-- C10: for every `Schematic` and both sponge targets (version 2 and
version 3), a successful run of the sponge serializer emits a document with
no `Metadata` tag at all — the metadata compound assembled during
serialization (passthrough metadata merged, for version < 3, with the
folded `WEOffsetX/Y/Z` paste offset) is discarded without being inserted,
at the root and (for version 3) inside the `Schematic` wrapper compound. -/
theorem sponge_serialize_no_metadata (s : Schematic) (doc : NbtMap) :
    (sponge_serialize s 2 = .ok doc → alGet doc kMetadata = none) ∧
    (sponge_serialize s 3 = .ok doc → alGet doc kMetadata = none ∧
      ∀ inner, alGet doc kSchematic = some (.compound inner) →
        alGet inner kMetadata = none) := by
  constructor
  · intro h
    exact sponge_serialize2_get s doc kMetadata
      (by refine ⟨?_, ?_, ?_, ?_, ?_, ?_, ?_, ?_, ?_, ?_⟩ <;> decide) h
  · intro h
    exact sponge_serialize3_get s doc kMetadata (by decide)
      (by refine ⟨?_, ?_, ?_, ?_, ?_, ?_, ?_, ?_, ?_, ?_, ?_⟩ <;> decide) h

/-- The document produced by serializing `schemSimple` (with passthrough
metadata attached) at version 2. -/
def schemWithMeta : Schematic :=
  { schemSimple with metadata := some [(kAir, .int 7)] }

def docFromSchemWithMeta : NbtMap := (sponge_serialize schemWithMeta 2).getD []

theorem sponge_serialize_no_metadata_witness :
    alGet docFromSchemWithMeta kMetadata = none :=
  (sponge_serialize_no_metadata schemWithMeta docFromSchemWithMeta).1 rfl

/-- C3 (code bug): serializing a schematic with `paste_offset = (1,2,3)`
and passthrough metadata at version 2 succeeds, yet the emitted document
contains no `Metadata` compound at all — the folded `WEOffsetX/Y/Z` fields
the source's own comment promises ("WorldEdit puts the paste offset into
the metadata for version < 3, so we will do the same") are never written. -/
theorem serialize_v2_drops_weoffset :
    (sponge_serialize schemWithMeta 2).map (fun doc => alGet doc kMetadata) =
      .ok none := rfl


/-! ### C9: metadata normalization on the version-2 read path -/

theorem alGet_mem [BEq κ] [LawfulBEq κ] (m : List (κ × α)) (k : κ) (v : α)
    (h : alGet m k = some v) : (k, v) ∈ m := by
  induction m with
  | nil => simp [alGet] at h
  | cons p rest ih =>
    obtain ⟨k0, v0⟩ := p
    rw [alGet_cons] at h
    by_cases hp : k0 == k
    · rw [if_pos hp] at h
      injection h with h
      subst h
      have hk : k0 = k := by simpa using hp
      subst hk
      simp
    · rw [if_neg hp] at h
      simp [ih h]

/-- Removing the three promoted keys empties a compound that contains only
them. -/
theorem remove3_nil (m : NbtMap) (a b c : String)
    (h : ∀ p ∈ m, p.1 = a ∨ p.1 = b ∨ p.1 = c) :
    alRemove (alRemove (alRemove m a) b) c = [] := by
  simp only [alRemove, List.filter_filter]
  rw [List.filter_eq_nil]
  intro p hp
  rcases h p hp with h1 | h1 | h1 <;> simp [h1]

/-- Whether a tagged value is an `Int`. -/
def Value.isInt : Value → Bool
  | .int _ => true
  | _ => false

/-- The promoted value of a `WEOffset` field: the stored int, or 0 when the
field is absent (`unwrap_or_default`). -/
def weInt (m : NbtMap) (k : String) : Int :=
  match alGet m k with
  | some (.int i) => i
  | _ => 0

/-- `unwrap_or_default` over the typed read of a `WEOffset` field agrees
with `weInt`. -/
theorem optIntVal_getD (m : NbtMap) (k : String) :
    (match alGet m k with
      | some (Value.int i) => some i
      | _ => none).getD 0 = weInt m k := by
  unfold weInt
  cases h : alGet m k with
  | none => rfl
  | some v => cases v <;> rfl

/-- C9 (amended): for every version-2 document whose `Metadata` compound
contains only integer `WEOffsetX/WEOffsetY/WEOffsetZ` fields (`WEOffsetX`
present, the others each defaulting to 0 if absent), a successful
deserialization yields `metadata = none` (the three keys are never
retained) and `paste_offset` equal to the promoted triple.  Version-1
documents never reach this normalization: `sponge::deserialize` rejects
version 1 as unsupported (claim C5). -/
theorem metadata_normalization (root : NbtMap) (md : NbtMap) (s : Schematic)
    (hmd : alGet root kMetadata = some (.compound md))
    (hx : alContains md kWEOffsetX = true)
    (hall : ∀ p ∈ md, (p.1 = kWEOffsetX ∨ p.1 = kWEOffsetY ∨ p.1 = kWEOffsetZ) ∧
      p.2.isInt = true)
    (hok : sponge_deserialize root 2 = .ok s) :
    s.metadata = none ∧
    s.paste_offset = some (weInt md kWEOffsetX, weInt md kWEOffsetY, weInt md kWEOffsetZ) := by
  have hmdo : optCompound root kMetadata = .ok (some md) := by
    simp [optCompound, hmd]
  have hfield : ∀ kk : String, optIntField md kk =
      .ok (match alGet md kk with | some (.int i) => some i | _ => none) := by
    intro kk
    unfold optIntField
    cases hg : alGet md kk with
    | none => rfl
    | some v =>
      have hm := alGet_mem md kk v hg
      have := (hall _ hm).2
      cases v <;> simp_all [Value.isInt]
  have hempty : alRemove (alRemove (alRemove md kWEOffsetX) kWEOffsetY) kWEOffsetZ = [] :=
    remove3_nil md _ _ _ (fun p hp => (hall p hp).1)
  simp only [sponge_deserialize, Outcome.bindOp_eq, Outcome.bind_ok] at hok
  norm_num at hok
  obtain ⟨dvv, hdvv, hok⟩ := Outcome.bind_eq_ok hok
  obtain ⟨wS, hwS, hok⟩ := Outcome.bind_eq_ok hok
  obtain ⟨hS, hhS, hok⟩ := Outcome.bind_eq_ok hok
  obtain ⟨lS, hlS, hok⟩ := Outcome.bind_eq_ok hok
  rw [hmdo] at hok
  simp only [Outcome.bind_ok] at hok
  rw [if_pos hx, hfield kWEOffsetX] at hok
  simp only [Outcome.bind_ok] at hok
  rw [hfield kWEOffsetY] at hok
  simp only [Outcome.bind_ok] at hok
  rw [hfield kWEOffsetZ] at hok
  simp only [Outcome.bind_ok] at hok
  obtain ⟨oarr, hoarr, hok⟩ := Outcome.bind_eq_ok hok
  cases oarr with
  | none =>
    simp only [] at hok
    obtain ⟨bb, hbb, hok⟩ := Outcome.bind_eq_ok hok
    injection hok with hs
    subst hs
    constructor
    · show (if (alRemove (alRemove (alRemove md kWEOffsetX) kWEOffsetY)
          kWEOffsetZ).isEmpty = true then none else _) = none
      rw [hempty]
      rfl
    · show some (_, _, _) = _
      rw [optIntVal_getD, optIntVal_getD, optIntVal_getD]
  | some arr =>
    simp only [] at hok
    obtain ⟨org, horg, hok⟩ := Outcome.bind_eq_ok hok
    obtain ⟨bb, hbb, hok⟩ := Outcome.bind_eq_ok hok
    injection hok with hs
    subst hs
    constructor
    · show (if (alRemove (alRemove (alRemove md kWEOffsetX) kWEOffsetY)
          kWEOffsetZ).isEmpty = true then none else _) = none
      rw [hempty]
      rfl
    · show some (_, _, _) = _
      rw [optIntVal_getD, optIntVal_getD, optIntVal_getD]

/-- A complete version-2 document whose `Metadata` holds only `WEOffsetX`
and `WEOffsetZ`. -/
def docC9 : NbtMap :=
  [(kVersion, .int 2), (kDataVersion, .int 100), (kWidth, .short 1), (kHeight, .short 1),
   (kLength, .short 1),
   (kMetadata, .compound [(kWEOffsetX, .int 5), (kWEOffsetZ, .int (-2))]),
   (kPalette, .compound [(kAir, .int 0)]), (kBlockData, .byteArray [0])]

def mdC9 : NbtMap := [(kWEOffsetX, .int 5), (kWEOffsetZ, .int (-2))]

def schemC9 : Schematic := (sponge_deserialize docC9 2).getD emptySchem

theorem metadata_normalization_witness :
    schemC9.metadata = none ∧
    schemC9.paste_offset =
      some (weInt mdC9 kWEOffsetX, weInt mdC9 kWEOffsetY, weInt mdC9 kWEOffsetZ) :=
  metadata_normalization docC9 mdC9 schemC9 rfl rfl
    (by
      intro p hp
      simp only [mdC9, List.mem_cons, List.not_mem_nil, or_false] at hp
      rcases hp with rfl | rfl
      · exact ⟨Or.inl rfl, rfl⟩
      · exact ⟨Or.inr (Or.inr rfl), rfl⟩)
    rfl

/-- C9 counterexample: the claim quantifies over version-1/2 documents, but
a version-1 document with a `WEOffsetX`-only `Metadata` compound does not
decode into a `Schematic` at all: it is rejected as
`UnsupportedFormat(Sponge(1))`. -/
theorem deserialize_v1_metadata_unsupported :
    Schematic.deserialize
        [(kVersion, .int 1), (kDataVersion, .int 100), (kWidth, .short 1),
         (kHeight, .short 1), (kLength, .short 1),
         (kMetadata, .compound [(kWEOffsetX, .int 5)]),
         (kPalette, .compound [(kAir, .int 0)]), (kBlockData, .byteArray [0])] =
      .error (.unsupportedFormat (.sponge 1)) := rfl


/-! ### C1: round trip at the version-3 target.  Traversal order lemmas. -/

/-- The flat index of a position (the formula of `block_index_at`). -/
def linIdx (sy sz : Nat) (p : Nat × Nat × Nat) : Nat :=
  p.1 * sy * sz + p.2.1 * sz + p.2.2

/-- The value stored at a position of the dense index array. -/
def Blocks.idAt (b : Blocks) (p : Nat × Nat × Nat) : Nat :=
  b.indices.getD (b.block_index_at p.1 p.2.1 p.2.2) 0

theorem traversal_mem (sx sy sz x y z : Nat) :
    (x, y, z) ∈ traversal sx sy sz ↔ x < sx ∧ y < sy ∧ z < sz := by
  simp only [traversal, List.mem_flatMap, List.mem_map, List.mem_range]
  constructor
  · rintro ⟨y2, hy2, z2, hz2, x2, hx2, heq⟩
    injection heq with e1 erest
    injection erest with e2 e3
    subst e1
    subst e2
    subst e3
    exact ⟨hx2, hy2, hz2⟩
  · rintro ⟨hx, hy, hz⟩
    exact ⟨y, hy, z, hz, x, hx, rfl⟩

theorem lin_inj (sx sy sz x y z x2 y2 z2 : Nat)
    (hx : x < sx) (hy : y < sy) (hz : z < sz)
    (hx2 : x2 < sx) (hy2 : y2 < sy) (hz2 : z2 < sz)
    (heq : x * sy * sz + y * sz + z = x2 * sy * sz + y2 * sz + z2) :
    x = x2 ∧ y = y2 ∧ z = z2 := by
  have hsz : 0 < sz := by omega
  have hsy : 0 < sy := by omega
  have l1 : x * sy * sz + y * sz + z = sz * (x * sy + y) + z := by ring
  have l2 : x2 * sy * sz + y2 * sz + z2 = sz * (x2 * sy + y2) + z2 := by ring
  have h1 : sz * (x * sy + y) + z = sz * (x2 * sy + y2) + z2 := by omega
  have hzz : z = z2 := by
    have e1 := congrArg (· % sz) h1
    simpa [Nat.mul_add_mod, Nat.mod_eq_of_lt hz, Nat.mod_eq_of_lt hz2] using e1
  have h2 : x * sy + y = x2 * sy + y2 := by
    have e2 := congrArg (· / sz) h1
    simpa [Nat.mul_add_div hsz, Nat.div_eq_of_lt hz, Nat.div_eq_of_lt hz2] using e2
  have l3 : x * sy + y = sy * x + y := by ring
  have l4 : x2 * sy + y2 = sy * x2 + y2 := by ring
  have h3 : sy * x + y = sy * x2 + y2 := by omega
  have hyy : y = y2 := by
    have e3 := congrArg (· % sy) h3
    simpa [Nat.mul_add_mod, Nat.mod_eq_of_lt hy, Nat.mod_eq_of_lt hy2] using e3
  have hxx : x = x2 := by
    have e4 := congrArg (· / sy) h3
    simpa [Nat.mul_add_div hsy, Nat.div_eq_of_lt hy, Nat.div_eq_of_lt hy2] using e4
  exact ⟨hxx, hyy, hzz⟩

theorem traversal_nodup (sx sy sz : Nat) : (traversal sx sy sz).Nodup := by
  unfold traversal
  rw [List.nodup_flatMap]
  constructor
  · intro y hy
    rw [List.nodup_flatMap]
    constructor
    · intro z hz
      refine List.Nodup.map_on ?_ (List.nodup_range sx)
      intro a _ b _ h
      have := congrArg Prod.fst h
      simpa using this
    · refine (List.nodup_range sz).imp ?_
      intro z1 z2 hne a ha1 ha2
      simp only [List.mem_map, List.mem_range] at ha1 ha2
      obtain ⟨x1, _, rfl⟩ := ha1
      obtain ⟨x2, _, heq⟩ := ha2
      injection heq with e1 erest
      injection erest with e2 e3
      exact hne e3.symm
  · refine (List.nodup_range sy).imp ?_
    intro y1 y2 hne a ha1 ha2
    simp only [List.mem_flatMap, List.mem_map, List.mem_range] at ha1 ha2
    obtain ⟨z1, _, x1, _, rfl⟩ := ha1
    obtain ⟨z2, _, x2, _, heq⟩ := ha2
    injection heq with e1 erest
    injection erest with e2 e3
    exact hne e2.symm


theorem traversal_lin_nodup (sx sy sz : Nat) :
    ((traversal sx sy sz).map (linIdx sy sz)).Nodup := by
  refine List.Nodup.map_on ?_ (traversal_nodup sx sy sz)
  intro p hp q hq heq
  obtain ⟨x1, y1, z1⟩ := p
  obtain ⟨x2, y2, z2⟩ := q
  rw [traversal_mem] at hp hq
  obtain ⟨e1, e2, e3⟩ := lin_inj sx sy sz x1 y1 z1 x2 y2 z2 hp.1 hp.2.1 hp.2.2
    hq.1 hq.2.1 hq.2.2 heq
  subst e1
  subst e2
  subst e3
  rfl

/-- Decoding an encoded id without the byte-array cast chain. -/
theorem decodeVarint_encode_raw (n : Nat) (hn : n < 2 ^ 32) (rest : List Nat) :
    decodeVarint (encodeVarint n ++ rest) = .ok (n, rest) := by
  have := decodeVarintLoop_encodeVarint n 0 0 rest (by omega) (by simpa using hn)
    (by norm_num)
  simpa [decodeVarint] using this

/-- Every byte of a concatenation of varint encodings fits in a `u8`. -/
theorem flatten_encode_lt (ps : List (Nat × Nat × Nat)) (f : Nat × Nat × Nat → Nat) :
    ∀ b ∈ (ps.map (fun p => encodeVarint (f p))).flatten, b < 256 := by
  intro b hb
  rw [List.mem_flatten] at hb
  obtain ⟨l, hl, hbl⟩ := hb
  rw [List.mem_map] at hl
  obtain ⟨p, _, rfl⟩ := hl
  exact encodeVarint_mem_lt _ b hbl

theorem writeCells_ok (b : Blocks) (ps : List (Nat × Nat × Nat))
    (hbox : ∀ p ∈ ps, p.1 < b.size_x ∧ p.2.1 < b.size_y ∧ p.2.2 < b.size_z)
    (hlen : b.indices.length = b.size_x * b.size_y * b.size_z) :
    writeCells b ps = .ok ((ps.map (fun p => encodeVarint (b.idAt p))).flatten) := by
  induction ps with
  | nil => rfl
  | cons p rest ih =>
    obtain ⟨x, y, z⟩ := p
    obtain ⟨hx, hy, hz⟩ := hbox (x, y, z) (by simp)
    have hidx : b.block_index_at x y z < b.indices.length := by
      rw [hlen]
      exact block_index_lt _ _ _ _ _ _ hx hy hz
    have hget : b.get_block_id_at x y z = .ok (b.idAt (x, y, z)) := by
      unfold Blocks.get_block_id_at Blocks.idAt
      rw [if_pos (by simp [Blocks.inBounds, hx, hy, hz])]
      rw [List.get?_eq_get hidx]
      rw [List.getD_eq_getElem?_getD]
      rw [← List.get?_eq_getElem?, List.get?_eq_get hidx]
      rfl
    simp only [writeCells, Outcome.bindOp_eq, hget, Outcome.bind_ok,
      ih (fun q hq => hbox q (by simp [hq]))]
    simp [List.flatten_cons]


/-- The generalized invariant of the block-data decode loop run on the
writer's byte stream: each cell of `src` is decoded, translated through the
wire mapping, and stored at its linearized index; positions outside the
processed list are untouched. -/
theorem readCells_spec (wire : List (Nat × Nat)) (g : Nat → Nat) (src : Blocks) :
    ∀ (ps : List (Nat × Nat × Nat)) (tl : List Nat) (acc : Blocks),
    (∀ p ∈ ps, p.1 < src.size_x ∧ p.2.1 < src.size_y ∧ p.2.2 < src.size_z) →
    acc.size_x = src.size_x → acc.size_y = src.size_y → acc.size_z = src.size_z →
    acc.indices.length = src.size_x * src.size_y * src.size_z →
    (∀ p ∈ ps, src.idAt p < 2 ^ 32 ∧ alGet wire (src.idAt p) = some (g (src.idAt p))) →
    ((ps.map (linIdx src.size_y src.size_z)).Nodup) →
    ∃ b2, readCells wire ps ((ps.map (fun p => encodeVarint (src.idAt p))).flatten ++ tl) acc =
        .ok (b2, tl) ∧
      b2.palette = acc.palette ∧ b2.palette_map = acc.palette_map ∧
      b2.size_x = acc.size_x ∧ b2.size_y = acc.size_y ∧ b2.size_z = acc.size_z ∧
      b2.indices.length = acc.indices.length ∧
      (∀ j, (∀ p ∈ ps, linIdx src.size_y src.size_z p ≠ j) →
        b2.indices.get? j = acc.indices.get? j) ∧
      (∀ p ∈ ps, b2.indices.get? (linIdx src.size_y src.size_z p) = some (g (src.idAt p))) := by
  intro ps
  induction ps with
  | nil =>
    intro tl acc hbox hsx hsy hsz hlen hwire hnd
    refine ⟨acc, by simp [readCells], rfl, rfl, rfl, rfl, rfl, rfl, fun j _ => rfl, ?_⟩
    intro p hp
    exact absurd hp (List.not_mem_nil p)
  | cons p rest ih =>
    intro tl acc hbox hsx hsy hsz hlen hwire hnd
    obtain ⟨x, y, z⟩ := p
    obtain ⟨hx, hy, hz⟩ := hbox (x, y, z) (by simp)
    obtain ⟨hid32, hwget⟩ := hwire (x, y, z) (by simp)
    have hin : acc.inBounds x y z = true := by
      simp [Blocks.inBounds, hsx, hsy, hsz, hx, hy, hz]
    have hidx_eq : acc.block_index_at x y z = linIdx src.size_y src.size_z (x, y, z) := by
      simp [Blocks.block_index_at, linIdx, hsy, hsz]
    have hidxlt : acc.block_index_at x y z < acc.indices.length := by
      rw [hidx_eq, hlen]
      simp only [linIdx]
      exact block_index_lt _ _ _ _ _ _ hx hy hz
    have hset : acc.set_block_id_at x y z (g (src.idAt (x, y, z))) =
        .ok { acc with
          indices := acc.indices.set (acc.block_index_at x y z) (g (src.idAt (x, y, z))) } := by
      unfold Blocks.set_block_id_at
      rw [if_pos hin, if_pos hidxlt]
    rw [List.map_cons, List.nodup_cons] at hnd
    obtain ⟨hnotin, hndrest⟩ := hnd
    obtain ⟨b2, hrun, hp1, hp2, hp3, hp4, hp5, hp6, huntouched, hhit⟩ :=
      ih tl
        { acc with
          indices := acc.indices.set (acc.block_index_at x y z) (g (src.idAt (x, y, z))) }
        (fun q hq => hbox q (List.mem_cons_of_mem _ hq))
        hsx hsy hsz
        (by simpa using hlen)
        (fun q hq => hwire q (List.mem_cons_of_mem _ hq))
        hndrest
    refine ⟨b2, ?_, by simpa using hp1, by simpa using hp2, by simpa using hp3,
      by simpa using hp4, by simpa using hp5, by simpa using hp6, ?_, ?_⟩
    · simp only [readCells, Outcome.bindOp_eq, List.map_cons, List.flatten_cons,
        List.append_assoc]
      rw [decodeVarint_encode_raw _ hid32]
      simp only [Outcome.bind_ok]
      rw [hwget]
      simp only [Outcome.bind_ok]
      rw [hset]
      simp only [Outcome.bind_ok]
      exact hrun
    · intro j hj
      rw [huntouched j (fun q hq => hj q (List.mem_cons_of_mem _ hq))]
      simp only []
      rw [List.get?_set_ne _ _ (by
        rw [hidx_eq]
        exact hj (x, y, z) (by simp))]
    · intro q hq
      rcases List.mem_cons.mp hq with rfl | hq2
      · have hrestne : ∀ r ∈ rest, linIdx src.size_y src.size_z r ≠
            linIdx src.size_y src.size_z (x, y, z) := by
          intro r hr hEq
          exact hnotin (hEq ▸ List.mem_map_of_mem (linIdx src.size_y src.size_z) hr)
        rw [huntouched _ hrestne]
        simp only []
        rw [← hidx_eq, List.get?_set_eq, List.get?_eq_get hidxlt]
        rfl
      · exact hhit q hq2


theorem alGet_append [BEq κ] (m1 m2 : List (κ × α)) (k : κ) :
    alGet (m1 ++ m2) k =
      match alGet m1 k with
      | some v => some v
      | none => alGet m2 k := by
  induction m1 with
  | nil => simp [alGet]
  | cons p rest ih =>
    obtain ⟨k0, v0⟩ := p
    rw [List.cons_append, alGet_cons, alGet_cons]
    by_cases h : k0 == k
    · rw [if_pos h, if_pos h]
    · rw [if_neg h, if_neg h, ih]

theorem alInsert_of_get_none [BEq κ] (m : List (κ × α)) (k : κ) (v : α)
    (h : alGet m k = none) : alInsert m k v = m ++ [(k, v)] := by
  induction m with
  | nil => rfl
  | cons p rest ih =>
    obtain ⟨k0, v0⟩ := p
    rw [alGet_cons] at h
    by_cases hp : k0 == k
    · rw [if_pos hp] at h
      exact Option.noConfusion h
    · rw [if_neg hp] at h
      simp only [alInsert, hp, Bool.false_eq_true, if_false, List.cons_append]
      rw [ih h]

theorem alGet_none_forall [BEq κ] [LawfulBEq κ] (m : List (κ × α)) (k : κ) :
    alGet m k = none → ∀ p ∈ m, ¬(p.1 = k) := by
  induction m with
  | nil =>
    intro _ p hp
    exact absurd hp (List.not_mem_nil _)
  | cons q rest ih =>
    intro h p hp hk
    obtain ⟨k1, v1⟩ := q
    rw [alGet_cons] at h
    by_cases hq : k1 == k
    · rw [if_pos hq] at h
      exact Option.noConfusion h
    · rw [if_neg hq] at h
      rcases List.mem_cons.mp hp with heq | hmem
      · subst heq
        exact absurd hk (by simpa using hq)
      · exact ih h p hmem hk

theorem foldl_alInsert_eq_append {γ : Type} [BEq κ] [LawfulBEq κ]
    (f : γ → κ) (g : γ → α) :
    ∀ (l : List γ) (acc : List (κ × α)),
    (∀ x ∈ l, alGet acc (f x) = none) → ((l.map f).Nodup) →
    l.foldl (fun m x => alInsert m (f x) (g x)) acc = acc ++ l.map (fun x => (f x, g x)) := by
  intro l
  induction l with
  | nil =>
    intro acc _ _
    simp
  | cons x rest ih =>
    intro acc hfresh hnd
    rw [List.map_cons, List.nodup_cons] at hnd
    obtain ⟨hnotin, hndrest⟩ := hnd
    rw [List.foldl_cons, alInsert_of_get_none _ _ _ (hfresh x (by simp))]
    rw [ih (acc ++ [(f x, g x)]) ?_ hndrest]
    · simp
    · intro q hq
      rw [alGet_append]
      rw [hfresh q (List.mem_cons_of_mem _ hq)]
      rw [alGet_cons]
      rw [if_neg (by
        simp only [beq_iff_eq]
        intro hc
        exact hnotin (hc ▸ List.mem_map_of_mem f hq))]
      rfl

/-- With distinct palette names, the wire palette compound written by the
serializer is literally the enumerated association list. -/
theorem buildWirePalette_eq (names : List String) (hnd : names.Nodup) :
    buildWirePalette names =
      names.enum.map (fun p => (p.2, Value.int (i32ofU32 p.1))) := by
  unfold buildWirePalette
  have h := foldl_alInsert_eq_append (fun p : Nat × String => p.2)
    (fun p : Nat × String => Value.int (i32ofU32 p.1)) names.enum []
    (fun x _ => rfl)
    (by
      have : names.enum.map (fun p : Nat × String => p.2) = names := List.enum_map_snd names
      rw [this]
      exact hnd)
  simpa using h


/-- The reader's palette fold, run on the serializer's enumerated palette:
each wire id `k + i` ends up mapped to a local id whose palette entry is
the original name; previously established wire entries and palette entries
are preserved, and the grid data is untouched. -/
theorem readPalette_spec (names2 : List String) :
    ∀ (k : Nat) (wire : List (Nat × Nat)) (b : Blocks),
    BlocksWF b → k + names2.length ≤ 2 ^ 32 →
    ∃ wire2 b2,
      readPalette ((List.enumFrom k names2).map
          (fun p => (p.2, Value.int (i32ofU32 p.1)))) wire b = .ok (wire2, b2) ∧
      BlocksWF b2 ∧
      b2.indices = b.indices ∧ b2.size_x = b.size_x ∧ b2.size_y = b.size_y ∧
      b2.size_z = b.size_z ∧
      (∀ i, i < b.palette.length → b2.palette.get? i = b.palette.get? i) ∧
      b.palette.length ≤ b2.palette.length ∧
      (∀ j, j < k → alGet wire2 j = alGet wire j) ∧
      (∀ i nm, names2.get? i = some nm →
        ∃ id, alGet wire2 (k + i) = some id ∧ b2.palette.get? id = some nm) := by
  induction names2 with
  | nil =>
    intro k wire b hwf hbound
    refine ⟨wire, b, rfl, hwf, rfl, rfl, rfl, rfl, fun i _ => rfl, le_refl _,
      fun j _ => rfl, fun i nm h => absurd h (by simp)⟩
  | cons nm rest ih =>
    intro k wire b hwf hbound
    simp only [List.length_cons] at hbound
    have hk32 : k < 2 ^ 32 := by omega
    obtain ⟨hwf2, hidlt, hidget, hpres, hmono, hind, hsx, hsy, hsz⟩ :=
      get_block_id_for_spec b nm hwf
    obtain ⟨wire2, b2, hrun, hwfb2, hindi, hsx2, hsy2, hsz2, hpres2, hmono2, hstable, hmain⟩ :=
      ih (k + 1) (alInsert wire k (b.get_block_id_for nm).1) (b.get_block_id_for nm).2
        hwf2 (by omega)
    refine ⟨wire2, b2, ?_, hwfb2, by rw [hindi, hind], by rw [hsx2, hsx],
      by rw [hsy2, hsy], by rw [hsz2, hsz], ?_, ?_, ?_, ?_⟩
    · simp only [List.enumFrom, List.map_cons, readPalette]
      rw [u32cast_i32ofU32 _ hk32]
      exact hrun
    · intro i hi
      rw [hpres2 i (by omega), hpres i hi]
    · omega
    · intro j hj
      rw [hstable j (by omega), alGet_insert_ne _ _ _ _ (by omega)]
    · intro i nm2 hget
      cases i with
      | zero =>
        rw [List.get?_cons_zero] at hget
        injection hget with hget
        subst hget
        refine ⟨(b.get_block_id_for nm).1, ?_, ?_⟩
        · rw [Nat.add_zero, hstable k (by omega), alGet_insert_self]
        · rw [hpres2 _ hidlt]
          exact hidget
      | succ i2 =>
        rw [List.get?_cons_succ] at hget
        have heq : k + (i2 + 1) = (k + 1) + i2 := by omega
        rw [heq]
        exact hmain i2 nm2 hget


/-- Reading back one block entity exactly as the writer emitted it. -/
theorem readBlockEntity_written (version : Nat) (acc : List ((Nat × Nat × Nat) × BlockEntity))
    (a b c : Nat) (be : BlockEntity)
    (h1 : a < 2 ^ 32) (h2 : b < 2 ^ 32) (h3 : c < 2 ^ 32)
    (hId : alGet be.data kId = none) (hPos : alGet be.data kPos = none) :
    readBlockEntity version acc
      (Value.compound (alInsert (alInsert be.data kId (.string be.id)) kPos
        (.intArray [i32ofU32 a, i32ofU32 b, i32ofU32 c]))) =
      .ok (alInsert acc (a, b, c) be) := by
  have hIdNe : ¬(kId = kPos) := by decide
  have hbeq1 : (kId == kPos) = false := by decide
  have hval : alInsert (alInsert be.data kId (.string be.id)) kPos
      (.intArray [i32ofU32 a, i32ofU32 b, i32ofU32 c]) =
      be.data ++ [(kId, Value.string be.id),
        (kPos, Value.intArray [i32ofU32 a, i32ofU32 b, i32ofU32 c])] := by
    rw [alInsert_of_get_none _ _ _ hId]
    rw [alInsert_of_get_none _ _ _ (by
      rw [alGet_append, hPos]
      simp [alGet, hbeq1])]
    rw [List.append_assoc]
    rfl
  have hPosGet : alGet (be.data ++ [(kId, Value.string be.id),
      (kPos, Value.intArray [i32ofU32 a, i32ofU32 b, i32ofU32 c])]) kPos =
      some (Value.intArray [i32ofU32 a, i32ofU32 b, i32ofU32 c]) := by
    rw [alGet_append, hPos]
    simp [alGet, hbeq1]
  have hIdGet : alGet (be.data ++ [(kId, Value.string be.id),
      (kPos, Value.intArray [i32ofU32 a, i32ofU32 b, i32ofU32 c])]) kId =
      some (Value.string be.id) := by
    rw [alGet_append, hId]
    simp [alGet]
  have hfd1 : List.filter (fun p => !(p.1 == kPos)) be.data = be.data :=
    List.filter_eq_self.mpr (fun p hp => by
      have := alGet_none_forall be.data kPos hPos p hp
      simp [this])
  have hfd2 : List.filter (fun p => !(p.1 == kId)) be.data = be.data :=
    List.filter_eq_self.mpr (fun p hp => by
      have := alGet_none_forall be.data kId hId p hp
      simp [this])
  have hdata : alRemove (alRemove (be.data ++ [(kId, Value.string be.id),
      (kPos, Value.intArray [i32ofU32 a, i32ofU32 b, i32ofU32 c])]) kPos) kId = be.data := by
    simp only [alRemove, List.filter_append, hfd1, hfd2, List.filter_cons, List.filter_nil]
    simp [hbeq1]
  have hreqPos : reqIntArray (be.data ++ [(kId, Value.string be.id),
      (kPos, Value.intArray [i32ofU32 a, i32ofU32 b, i32ofU32 c])]) kPos =
      .ok [i32ofU32 a, i32ofU32 b, i32ofU32 c] := by
    simp [reqIntArray, hPosGet]
  have hreqId : reqString (be.data ++ [(kId, Value.string be.id),
      (kPos, Value.intArray [i32ofU32 a, i32ofU32 b, i32ofU32 c])]) kId =
      .ok be.id := by
    simp [reqString, hIdGet]
  rw [hval]
  simp only [readBlockEntity, Outcome.bindOp_eq]
  rw [hreqPos]
  simp only [Outcome.bind_ok, List.get?_cons_zero, List.get?_cons_succ]
  rw [u32cast_i32ofU32 _ h1, u32cast_i32ofU32 _ h2, u32cast_i32ofU32 _ h3]
  rw [hreqId]
  simp only [Outcome.bind_ok]
  rw [hdata]

/-- The reader's block-entity fold over the writer's list. -/
theorem foldlM_readBE (version : Nat) (bes : List ((Nat × Nat × Nat) × BlockEntity))
    (hcond : ∀ pb ∈ bes, pb.1.1 < 2 ^ 32 ∧ pb.1.2.1 < 2 ^ 32 ∧ pb.1.2.2 < 2 ^ 32 ∧
      alGet pb.2.data kId = none ∧ alGet pb.2.data kPos = none) :
    ∀ acc, (bes.map fun pb => Value.compound
        (alInsert (alInsert pb.2.data kId (.string pb.2.id)) kPos
          (.intArray [i32ofU32 pb.1.1, i32ofU32 pb.1.2.1, i32ofU32 pb.1.2.2]))).foldlM
        (readBlockEntity version) acc =
      .ok (bes.foldl (fun m pb => alInsert m pb.1 pb.2) acc) := by
  induction bes with
  | nil =>
    intro acc
    rfl
  | cons pb rest ih =>
    intro acc
    obtain ⟨pos, be⟩ := pb
    obtain ⟨x, y, z⟩ := pos
    obtain ⟨c1, c2, c3, c4, c5⟩ := hcond ((x, y, z), be) (by simp)
    rw [List.map_cons, List.foldlM_cons]
    rw [readBlockEntity_written version acc x y z be c1 c2 c3 c4 c5]
    simp only [Outcome.bindOp_eq, Outcome.bind_ok]
    exact ih (fun q hq => hcond q (List.mem_cons_of_mem _ hq)) _

/-- Looking up a position after the last-write-wins fold, for distinct
positions. -/
theorem foldl_insert_lookup [BEq κ] [LawfulBEq κ] (l : List (κ × α)) :
    ∀ acc : List (κ × α), ((l.map Prod.fst).Nodup) → ∀ k,
    alGet (l.foldl (fun m p => alInsert m p.1 p.2) acc) k =
      match alGet l k with
      | some v => some v
      | none => alGet acc k := by
  induction l with
  | nil =>
    intro acc _ k
    simp [alGet]
  | cons p rest ih =>
    intro acc hnd k
    obtain ⟨k0, v0⟩ := p
    rw [List.map_cons, List.nodup_cons] at hnd
    obtain ⟨hnotin, hndrest⟩ := hnd
    rw [List.foldl_cons, ih _ hndrest k, alGet_cons]
    by_cases hk : k0 == k
    · have hk0 : k0 = k := by simpa using hk
      subst hk0
      have hrest : alGet rest k0 = none := by
        cases hg : alGet rest k0 with
        | none => rfl
        | some v =>
          exact absurd (List.mem_map_of_mem Prod.fst (alGet_mem rest k0 v hg)) hnotin
      rw [hrest, if_pos hk, alGet_insert_self]
    · rw [if_neg hk]
      cases hg : alGet rest k with
      | some v => rfl
      | none =>
        simp only []
        rw [alGet_insert_ne _ _ _ _ (by simpa using hk)]


/-- The block-entity list the version-3 serializer emits. -/
def mkBesList (bes : List ((Nat × Nat × Nat) × BlockEntity)) : List Value :=
  bes.map fun pb => Value.compound
    (alInsert (alInsert pb.2.data kId (.string pb.2.id)) kPos
      (.intArray [i32ofU32 pb.1.1, i32ofU32 pb.1.2.1, i32ofU32 pb.1.2.2]))

/-- The `Blocks` container compound the version-3 serializer emits. -/
def mkContainer (s : Schematic) (bytes : List Nat) : NbtMap :=
  alInsert (alInsert (alInsert [] kPalette (.compound (buildWirePalette s.blocks.palette)))
    kData (.byteArray (bytes.map natToI8))) kBlockEntities (.list (mkBesList s.block_entities))

/-- The compound wrapped under `Schematic` by the version-3 serializer. -/
def mkInner (s : Schematic) (dv : Nat) (po : Int × Int × Int) (bytes : List Nat) : NbtMap :=
  alInsert (alInsert (alInsert (alInsert (alInsert (alInsert (alInsert []
    kVersion (.int (i32ofU32 3)))
    kDataVersion (.int (i32ofU32 dv)))
    kWidth (.short (s.blocks.size_x : Int)))
    kHeight (.short (s.blocks.size_y : Int)))
    kLength (.short (s.blocks.size_z : Int)))
    kOffset (.intArray [po.1, po.2.1, po.2.2]))
    kBlocks (.compound (mkContainer s bytes))

/-- The root document the version-3 serializer emits. -/
def mkRootV3 (s : Schematic) (dv : Nat) (po : Int × Int × Int) (bytes : List Nat) : NbtMap :=
  alInsert [] kSchematic (.compound (mkInner s dv po bytes))

/-- On a well-formed schematic the version-3 serializer succeeds and its
output is exactly `mkRootV3`. -/
theorem sponge_serialize3_shape (s : Schematic) (dv : Nat) (po : Int × Int × Int)
    (hdv : s.data_version = some dv) (hpo : s.paste_offset = some po)
    (hx : s.blocks.size_x ≤ 32767) (hy : s.blocks.size_y ≤ 32767)
    (hz : s.blocks.size_z ≤ 32767)
    (hlen : s.blocks.indices.length = s.blocks.size_x * s.blocks.size_y * s.blocks.size_z) :
    sponge_serialize s 3 = .ok (mkRootV3 s dv po
      (((traversal s.blocks.size_x s.blocks.size_y s.blocks.size_z).map
        (fun p => encodeVarint (s.blocks.idAt p))).flatten)) := by
  have hwc := writeCells_ok s.blocks
    (traversal s.blocks.size_x s.blocks.size_y s.blocks.size_z)
    (by
      intro p hp
      obtain ⟨px, py, pz⟩ := p
      exact (traversal_mem _ _ _ _ _ _).mp hp)
    hlen
  have hwbc : write_block_container 3 s.blocks s.block_entities [] =
      .ok (mkContainer s
        (((traversal s.blocks.size_x s.blocks.size_y s.blocks.size_z).map
          (fun p => encodeVarint (s.blocks.idAt p))).flatten)) := by
    simp only [write_block_container, Outcome.bindOp_eq]
    rw [hwc]
    simp only [Outcome.bind_ok]
    rfl
  simp only [sponge_serialize, Outcome.bindOp_eq]
  rw [hdv]
  simp only [Outcome.bind_ok]
  simp only [tryIntoI16, if_pos hx, if_pos hy, if_pos hz, Outcome.bind_ok]
  norm_num
  rw [hpo]
  simp only [Outcome.bind_ok]
  rw [hwbc]
  simp only [Outcome.bind_ok]
  rfl


/-- The dispatcher on the version-3 serializer output: the nested
`Schematic` compound carries `Version = 3`, so `Schematic::deserialize`
reduces to the sponge reader at version 3. -/
theorem deserialize_mkRootV3_dispatch (s : Schematic) (dv : Nat) (po : Int × Int × Int)
    (bytes : List Nat) :
    Schematic.deserialize (mkRootV3 s dv po bytes) =
      sponge_deserialize (mkRootV3 s dv po bytes) 3 := rfl

/-- `sponge::deserialize` on the serializer output, factored at the
block-container read: every field access before it is on a concrete key, so
it reduces definitionally. -/
theorem sponge_deserialize_mkRootV3 (s : Schematic) (dv : Nat) (po : Int × Int × Int)
    (bytes : List Nat) :
    sponge_deserialize (mkRootV3 s dv po bytes) 3 =
      Outcome.bind
        (read_block_container 3 (u32cast (s.blocks.size_x : Int))
          (u32cast (s.blocks.size_y : Int)) (u32cast (s.blocks.size_z : Int))
          (mkContainer s bytes))
        (fun bb => Outcome.ok
          { blocks := bb.1
            data_version := some (u32cast (i32ofU32 dv))
            paste_offset := some (po.1, po.2.1, po.2.2)
            origin := none
            biomes := none
            block_entities := bb.2
            metadata := none }) := rfl

/-- `read_block_container` at version 3 on the serializer container,
factored at its three symbolic sub-computations (palette fold, cell decode,
block-entity fold). -/
theorem read_block_container_mkContainer (s : Schematic) (bytes : List Nat)
    (sx sy sz : Nat) :
    read_block_container 3 sx sy sz (mkContainer s bytes) =
      if sx * sy * sz < 2 ^ 32 then
        Outcome.bind
          (readPalette (buildWirePalette s.blocks.palette) [] (Blocks.new sx sy sz kAir))
          (fun wb => Outcome.bind
            (readCells wb.1 (traversal sx sy sz) ((bytes.map natToI8).map i8toU8) wb.2)
            (fun br => Outcome.bind
              ((mkBesList s.block_entities).foldlM (readBlockEntity 3) [])
              (fun bes => Outcome.ok (br.1, bes))))
      else Outcome.fatal := rfl

/-- The dense array holds the value `idAt` returns at every in-bounds flat
index. -/
theorem indices_get?_idAt (b : Blocks) (x y z : Nat)
    (hlen : b.indices.length = b.size_x * b.size_y * b.size_z)
    (hx : x < b.size_x) (hy : y < b.size_y) (hz : z < b.size_z) :
    b.indices.get? (b.block_index_at x y z) = some (b.idAt (x, y, z)) := by
  have hlt : b.block_index_at x y z < b.indices.length := by
    rw [hlen]
    exact block_index_lt _ _ _ _ _ _ hx hy hz
  unfold Blocks.idAt
  rw [List.get?_eq_get hlt]
  rw [List.getD_eq_getElem?_getD, ← List.get?_eq_getElem?, List.get?_eq_get hlt]
  rfl

/-- `get_block_id_at` on an in-bounds position of a dense container returns
`idAt`. -/
theorem get_block_id_at_idAt (b : Blocks) (x y z : Nat)
    (hlen : b.indices.length = b.size_x * b.size_y * b.size_z)
    (hx : x < b.size_x) (hy : y < b.size_y) (hz : z < b.size_z) :
    b.get_block_id_at x y z = .ok (b.idAt (x, y, z)) := by
  unfold Blocks.get_block_id_at
  rw [if_pos (by simp [Blocks.inBounds, hx, hy, hz])]
  rw [indices_get?_idAt b x y z hlen hx hy hz]


/-- C1 (amended): on a well-formed `Schematic` — `data_version` and
`paste_offset` set, dense in-bounds index grid, duplicate-free palette of at
most 2^32 entries, volume below 2^32, sizes at most 32767, block entities at
distinct in-range positions whose payloads lack `Id`/`Pos` keys — a
version-3 serialize followed by deserialize succeeds and returns the same
`data_version`, `paste_offset`, sizes, every in-bounds block, and the same
block-entity map; but `origin`, `biomes` and passthrough `metadata` are
always `None` in the result, regardless of their input values, so the
claimed round-trip equality fails for schematics carrying metadata, an
origin, or biomes. -/
theorem roundtrip_v3 (s : Schematic) (dv : Nat) (po : Int × Int × Int)
    (hdv : s.data_version = some dv) (hdv32 : dv < 2 ^ 32)
    (hpo : s.paste_offset = some po)
    (hx : s.blocks.size_x ≤ 32767) (hy : s.blocks.size_y ≤ 32767)
    (hz : s.blocks.size_z ≤ 32767)
    (hprod : s.blocks.size_x * s.blocks.size_y * s.blocks.size_z < 2 ^ 32)
    (hlen : s.blocks.indices.length = s.blocks.size_x * s.blocks.size_y * s.blocks.size_z)
    (hids : ∀ i ∈ s.blocks.indices, i < s.blocks.palette.length)
    (hpal : s.blocks.palette.Nodup)
    (hpal32 : s.blocks.palette.length ≤ 2 ^ 32)
    (hbes : ∀ pb ∈ s.block_entities, pb.1.1 < 2 ^ 32 ∧ pb.1.2.1 < 2 ^ 32 ∧
      pb.1.2.2 < 2 ^ 32 ∧ alGet pb.2.data kId = none ∧ alGet pb.2.data kPos = none)
    (hbk : (s.block_entities.map Prod.fst).Nodup) :
    ∃ s2, roundTrip s = .ok s2 ∧
      s2.data_version = some dv ∧
      s2.paste_offset = some po ∧
      s2.origin = none ∧
      s2.biomes = none ∧
      s2.metadata = none ∧
      s2.blocks.size_x = s.blocks.size_x ∧
      s2.blocks.size_y = s.blocks.size_y ∧
      s2.blocks.size_z = s.blocks.size_z ∧
      (∀ x y z, x < s.blocks.size_x → y < s.blocks.size_y → z < s.blocks.size_z →
        s2.blocks.get_block_at x y z = s.blocks.get_block_at x y z) ∧
      (∀ pos, alGet s2.block_entities pos = alGet s.block_entities pos) := by
  have hsx32 : s.blocks.size_x < 2 ^ 32 := lt_of_le_of_lt hx (by norm_num)
  have hsy32 : s.blocks.size_y < 2 ^ 32 := lt_of_le_of_lt hy (by norm_num)
  have hsz32 : s.blocks.size_z < 2 ^ 32 := lt_of_le_of_lt hz (by norm_num)
  have hser := sponge_serialize3_shape s dv po hdv hpo hx hy hz hlen
  have hrt : roundTrip s = Schematic.deserialize (mkRootV3 s dv po
      (((traversal s.blocks.size_x s.blocks.size_y s.blocks.size_z).map
        (fun p => encodeVarint (s.blocks.idAt p))).flatten)) := by
    unfold roundTrip
    rw [show Schematic.serialize s (.sponge 3) = sponge_serialize s 3 from rfl, hser]
    rfl
  obtain ⟨wire2, b2, hrpRun, hwf2, hind2, hsx2, hsy2, hsz2, hpres2, hmono2, hstable2, hmain2⟩ :=
    readPalette_spec s.blocks.palette 0 []
      (Blocks.new s.blocks.size_x s.blocks.size_y s.blocks.size_z kAir)
      (blocksWF_new _ _ _ _) (by simpa using hpal32)
  have hrp2 : readPalette (buildWirePalette s.blocks.palette) []
      (Blocks.new s.blocks.size_x s.blocks.size_y s.blocks.size_z kAir) =
      .ok (wire2, b2) := by
    rw [buildWirePalette_eq _ hpal]
    exact hrpRun
  have hcell : ∀ p ∈ traversal s.blocks.size_x s.blocks.size_y s.blocks.size_z,
      s.blocks.idAt p < 2 ^ 32 ∧
      alGet wire2 (s.blocks.idAt p) = some ((alGet wire2 (s.blocks.idAt p)).getD 0) := by
    intro p hp
    obtain ⟨x, y, z⟩ := p
    rw [traversal_mem] at hp
    obtain ⟨hpx, hpy, hpz⟩ := hp
    have hsome := indices_get?_idAt s.blocks x y z hlen hpx hpy hpz
    have hmem : s.blocks.idAt (x, y, z) ∈ s.blocks.indices := List.get?_mem hsome
    have hidlt := hids _ hmem
    have hnm := List.get?_eq_get hidlt
    obtain ⟨id, hwid, hpid⟩ := hmain2 (s.blocks.idAt (x, y, z)) _ hnm
    rw [Nat.zero_add] at hwid
    refine ⟨lt_of_lt_of_le hidlt hpal32, ?_⟩
    rw [hwid]
    rfl
  obtain ⟨bF, hrcRun, hfp1, hfp2, hfsx, hfsy, hfsz, hflen, huntouched, hhit⟩ :=
    readCells_spec wire2 (fun v => (alGet wire2 v).getD 0) s.blocks
      (traversal s.blocks.size_x s.blocks.size_y s.blocks.size_z) [] b2
      (by
        intro p hp
        obtain ⟨px, py, pz⟩ := p
        exact (traversal_mem _ _ _ _ _ _).mp hp)
      (by rw [hsx2]; rfl) (by rw [hsy2]; rfl) (by rw [hsz2]; rfl)
      (by rw [hind2]; simp [Blocks.new])
      hcell
      (traversal_lin_nodup _ _ _)
  rw [List.append_nil] at hrcRun
  have hcast : ((((traversal s.blocks.size_x s.blocks.size_y s.blocks.size_z).map
        (fun p => encodeVarint (s.blocks.idAt p))).flatten).map natToI8).map i8toU8 =
      ((traversal s.blocks.size_x s.blocks.size_y s.blocks.size_z).map
        (fun p => encodeVarint (s.blocks.idAt p))).flatten := by
    rw [List.map_map]
    exact map_i8_id _ (flatten_encode_lt _ _)
  have hrc2 : readCells wire2 (traversal s.blocks.size_x s.blocks.size_y s.blocks.size_z)
      (((((traversal s.blocks.size_x s.blocks.size_y s.blocks.size_z).map
        (fun p => encodeVarint (s.blocks.idAt p))).flatten).map natToI8).map i8toU8) b2 =
      .ok (bF, []) := by
    rw [hcast]
    exact hrcRun
  have hfold : (mkBesList s.block_entities).foldlM (readBlockEntity 3) [] =
      .ok (s.block_entities.foldl (fun m pb => alInsert m pb.1 pb.2) []) :=
    foldlM_readBE 3 s.block_entities hbes []
  refine ⟨{ blocks := bF
            origin := none
            paste_offset := some (po.1, po.2.1, po.2.2)
            biomes := none
            data_version := some (u32cast (i32ofU32 dv))
            block_entities := s.block_entities.foldl (fun m pb => alInsert m pb.1 pb.2) []
            metadata := none }, ?_, ?_, ?_, ?_, ?_, ?_, ?_, ?_, ?_, ?_, ?_⟩
  · rw [hrt, deserialize_mkRootV3_dispatch, sponge_deserialize_mkRootV3]
    rw [u32cast_ofNat _ hsx32, u32cast_ofNat _ hsy32, u32cast_ofNat _ hsz32]
    rw [read_block_container_mkContainer, if_pos hprod]
    rw [hrp2]
    simp only [Outcome.bind_ok]
    rw [hrc2]
    simp only [Outcome.bind_ok]
    rw [hfold]
    simp only [Outcome.bind_ok]
  · show some (u32cast (i32ofU32 dv)) = some dv
    rw [u32cast_i32ofU32 _ hdv32]
  · rfl
  · rfl
  · rfl
  · rfl
  · show bF.size_x = s.blocks.size_x
    rw [hfsx, hsx2]
    rfl
  · show bF.size_y = s.blocks.size_y
    rw [hfsy, hsy2]
    rfl
  · show bF.size_z = s.blocks.size_z
    rw [hfsz, hsz2]
    rfl
  · intro x y z hxx hyy hzz
    show bF.get_block_at x y z = s.blocks.get_block_at x y z
    have hsome := indices_get?_idAt s.blocks x y z hlen hxx hyy hzz
    have hmem : s.blocks.idAt (x, y, z) ∈ s.blocks.indices := List.get?_mem hsome
    have hidlt := hids _ hmem
    have hnm := List.get?_eq_get hidlt
    obtain ⟨id, hwid, hpid⟩ := hmain2 (s.blocks.idAt (x, y, z)) _ hnm
    rw [Nat.zero_add] at hwid
    have hmemT : (x, y, z) ∈ traversal s.blocks.size_x s.blocks.size_y s.blocks.size_z :=
      (traversal_mem _ _ _ _ _ _).mpr ⟨hxx, hyy, hzz⟩
    have hhit2 := hhit (x, y, z) hmemT
    have hgv : (alGet wire2 (s.blocks.idAt (x, y, z))).getD 0 = id := by
      rw [hwid]
      rfl
    have hinF : bF.inBounds x y z = true := by
      simp [Blocks.inBounds, hfsx, hfsy, hfsz, hsx2, hsy2, hsz2, Blocks.new, hxx, hyy, hzz]
    have hbidx : bF.block_index_at x y z = linIdx s.blocks.size_y s.blocks.size_z (x, y, z) := by
      simp [Blocks.block_index_at, linIdx, hfsy, hfsz, hsy2, hsz2, Blocks.new]
    have hF_id : bF.get_block_id_at x y z = .ok id := by
      unfold Blocks.get_block_id_at
      rw [if_pos hinF, hbidx, hhit2, hgv]
    have hsrc_id : s.blocks.get_block_id_at x y z = .ok (s.blocks.idAt (x, y, z)) :=
      get_block_id_at_idAt s.blocks x y z hlen hxx hyy hzz
    unfold Blocks.get_block_at
    rw [hF_id, hsrc_id]
    simp only [Outcome.bind_ok]
    rw [hfp1, hpid, hnm]
  · intro pos
    show alGet (s.block_entities.foldl (fun m pb => alInsert m pb.1 pb.2) []) pos =
      alGet s.block_entities pos
    rw [foldl_insert_lookup s.block_entities [] hbk pos]
    cases halg : alGet s.block_entities pos with
    | some v => rfl
    | none => rfl


/-- A schematic carrying passthrough metadata (otherwise identical to
`schemSimple`). -/
def c1MetaSchem : Schematic :=
  { schemSimple with metadata := some [(kStone, .int 7)] }

/-- C1 counterexample: the round trip is not the identity up to the
promotion/demotion rules — passthrough metadata is silently lost.  A
schematic with nonempty metadata serializes and deserializes successfully,
but the result has `metadata = None` (the serializer assembles and then
drops the metadata compound; see C3/C10). -/
theorem roundtrip_metadata_lost :
    c1MetaSchem.metadata = some [(kStone, Value.int 7)] ∧
    Outcome.map Schematic.metadata (roundTrip c1MetaSchem) = .ok none := by
  constructor
  · rfl
  · have e0 : encodeVarint 0 = [0] := by
      unfold encodeVarint
      rfl
    have hser := sponge_serialize3_shape c1MetaSchem 100 (1, 2, 3) rfl rfl (by decide)
      (by decide) (by decide) rfl
    have hbytes : ((traversal c1MetaSchem.blocks.size_x c1MetaSchem.blocks.size_y
        c1MetaSchem.blocks.size_z).map
        (fun p => encodeVarint (c1MetaSchem.blocks.idAt p))).flatten = [0] := by
      rw [show traversal c1MetaSchem.blocks.size_x c1MetaSchem.blocks.size_y
          c1MetaSchem.blocks.size_z = [(0, 0, 0)] from rfl]
      rw [List.map_cons, List.map_nil]
      rw [show c1MetaSchem.blocks.idAt (0, 0, 0) = 0 from rfl]
      rw [e0]
      rfl
    rw [hbytes] at hser
    unfold roundTrip
    rw [show Schematic.serialize c1MetaSchem (.sponge 3) =
      sponge_serialize c1MetaSchem 3 from rfl]
    rw [hser]
    rfl

/-- A concrete 2×1×1 schematic with a two-entry palette, a nontrivial
block-entity map, `data_version` and `paste_offset` set. -/
def c1Schem : Schematic :=
  { blocks :=
      { palette := [kAir, kStone]
        palette_map := [(kAir, 0), (kStone, 1)]
        indices := [0, 1]
        size_x := 2
        size_y := 1
        size_z := 1 }
    origin := none
    paste_offset := some (1, -2, 3)
    biomes := none
    data_version := some 3578
    block_entities := [((1, 0, 0), ⟨kStone, [(kWEOffsetX, .int 9)]⟩)]
    metadata := none }

theorem roundtrip_v3_witness :
    Outcome.map Schematic.data_version (roundTrip c1Schem) = .ok (some 3578) ∧
    Outcome.map Schematic.paste_offset (roundTrip c1Schem) = .ok (some (1, -2, 3)) ∧
    Outcome.map Schematic.metadata (roundTrip c1Schem) = .ok none ∧
    Outcome.map Schematic.origin (roundTrip c1Schem) = .ok none ∧
    Outcome.map (fun s2 => s2.blocks.get_block_at 1 0 0) (roundTrip c1Schem) =
      .ok (c1Schem.blocks.get_block_at 1 0 0) ∧
    Outcome.map (fun s2 => alGet s2.block_entities (1, 0, 0)) (roundTrip c1Schem) =
      .ok (alGet c1Schem.block_entities (1, 0, 0)) := by
  obtain ⟨s2, hrun, hdv2, hpo2, ho2, hb2, hm2, hsx2, hsy2, hsz2, hblk2, hbe2⟩ :=
    roundtrip_v3 c1Schem 3578 (1, -2, 3) rfl (by decide) rfl (by decide) (by decide)
      (by decide) (by decide) rfl (by decide) (by decide) (by decide)
      (by
        intro pb hpb
        have hpb2 : pb = ((1, 0, 0), (⟨kStone, [(kWEOffsetX, Value.int 9)]⟩ : BlockEntity)) := by
          simpa [c1Schem] using hpb
        subst hpb2
        exact ⟨by decide, by decide, by decide, rfl, rfl⟩)
      (by decide)
  rw [hrun]
  exact ⟨by simp [Outcome.map, hdv2], by simp [Outcome.map, hpo2],
    by simp [Outcome.map, hm2], by simp [Outcome.map, ho2],
    by
      simp only [Outcome.map]
      rw [hblk2 1 0 0 (by decide) (by decide) (by decide)],
    by
      simp only [Outcome.map]
      rw [hbe2 (1, 0, 0)]⟩

end McSchems
